import Mathlib

/-!
Verification development for IssuePilot's duplicate-detection core
(`backend/app/duplicate_finder.py` and the pydantic schemas in
`backend/app/schemas.py`).  The Python code is shallowly embedded over
`List Char` / `String` for text processing and `ℚ` for similarity scores;
fallible operations (dict key access, sklearn's empty-vocabulary
`ValueError`, pydantic validation, the remote embedding service) are
modelled with `Except`.
-/

namespace IssuePilot

attribute [local semireducible] Rat.mul Rat.add Rat.sub Rat.inv

/-- Backtick character, the code-fence delimiter removed by
`_preprocess_text` (regex `\x60\x60\x60[\s\S]*?\x60\x60\x60`). -/
def tick : Char := Char.ofNat 96

/-- ASCII lowercasing of one character, modelling Python `str.lower` (line 59,
`text = text.lower()`).  Only ASCII letters are mapped; non-ASCII
case-folding is irrelevant to every theorem below because the later
character filter (line 68) removes all characters outside `[a-z0-9\s]`. -/
def pyLower (c : Char) : Char :=
  if 65 ≤ c.toNat ∧ c.toNat ≤ 90 then Char.ofNat (c.toNat + 32) else c

/-- Whitespace as matched by the regex class `\s` and split on by
`str.split()` (ASCII portion; for both Python notions the two sets
coincide, and non-ASCII whitespace never survives to any theorem's
statement because the character filter keeps only `[a-z0-9\s]`). -/
def isPySpace (c : Char) : Bool :=
  c == ' ' || c == '\t' || c == '\n' || c == '\r' || c == '\x0b' || c == '\x0c'

/-- Locate the first occurrence of three consecutive backticks: returns the
text before the fence and the remainder after it, or `none` when no fence
occurs.  This is the scanning step of the non-greedy regex
`\x60\x60\x60[\s\S]*?\x60\x60\x60` used at line 62. -/
def splitAtTicks : List Char → Option (List Char × List Char)
  | c1 :: c2 :: c3 :: rest =>
    if c1 = tick ∧ c2 = tick ∧ c3 = tick then some ([], rest)
    else
      match splitAtTicks (c2 :: c3 :: rest) with
      | none => none
      | some (pre, post) => some (c1 :: pre, post)
  | _ => none

/-- Fuelled worker for `re.sub` of the code-block regex (line 62): find an
opening fence, find its closing fence, replace the whole region with a
single space, continue after it; a lone unclosed fence matches nothing.
Fuel is the input length, which bounds the number of replacements. -/
def stripCodeBlocksF : Nat → List Char → List Char
  | 0, cs => cs
  | fuel + 1, cs =>
    match splitAtTicks cs with
    | none => cs
    | some (pre, rest) =>
      match splitAtTicks rest with
      | none => cs
      | some (_, rest2) => pre ++ ' ' :: stripCodeBlocksF fuel rest2

/-- Removal of fenced code blocks, line 62 of `duplicate_finder.py`. -/
def stripCodeBlocks (cs : List Char) : List Char :=
  stripCodeBlocksF (cs.length + 1) cs

def httpChars : List Char := "http://".data

def httpsChars : List Char := "https://".data

/-- Scheme matching for the URL regex `https?://\S+` (line 65): succeeds when
the text starts with `https://` (the greedy `s?`) or `http://`, returning
the remainder. -/
def afterScheme (cs : List Char) : Option (List Char) :=
  if httpsChars.isPrefixOf cs then some (cs.drop 8)
  else if httpChars.isPrefixOf cs then some (cs.drop 7)
  else none

/-- Span of non-whitespace characters (the greedy `\S+`): returns the maximal
non-whitespace run and the rest. -/
def spanNonWs : List Char → List Char × List Char
  | [] => ([], [])
  | c :: cs =>
    if isPySpace c then ([], c :: cs)
    else
      let p := spanNonWs cs
      (c :: p.1, p.2)

/-- Fuelled worker for `re.sub(r"https?://\S+", " ", text)` (line 65): scan
left to right; a match needs a scheme followed by at least one
non-whitespace character, consumes the maximal non-whitespace run, and is
replaced by one space; scanning resumes after the match. -/
def stripUrlsF : Nat → List Char → List Char
  | 0, cs => cs
  | _ + 1, [] => []
  | fuel + 1, c :: cs =>
    match afterScheme (c :: cs) with
    | some rest =>
      match rest with
      | r :: _ =>
        if isPySpace r then c :: stripUrlsF fuel cs
        else ' ' :: stripUrlsF fuel (spanNonWs rest).2
      | [] => c :: stripUrlsF fuel cs
    | none => c :: stripUrlsF fuel cs

/-- Removal of URLs, line 65 of `duplicate_finder.py`. -/
def stripUrls (cs : List Char) : List Char := stripUrlsF cs.length cs

/-- Membership in `[a-z0-9]`, the characters kept verbatim by the filter at
line 68 (`re.sub(r"[^a-z0-9\s]", " ", text)`). -/
def isKeepChar (c : Char) : Bool :=
  (97 ≤ c.toNat && c.toNat ≤ 122) || (48 ≤ c.toNat && c.toNat ≤ 57)

/-- Replacement of every character outside `[a-z0-9\s]` with a space,
line 68 of `duplicate_finder.py`. -/
def filterSpecial (cs : List Char) : List Char :=
  cs.map fun c => if isKeepChar c || isPySpace c then c else ' '

/-- Accumulator worker for `str.split()`: splits on runs of whitespace and
drops empty pieces.  `acc` holds the current word reversed. -/
def wordsAux : List Char → List Char → List (List Char)
  | acc, [] => if acc.isEmpty then [] else [acc.reverse]
  | acc, c :: cs =>
    if isPySpace c then
      if acc.isEmpty then wordsAux [] cs else acc.reverse :: wordsAux [] cs
    else wordsAux (c :: acc) cs

/-- Python `text.split()` (no separator argument), used at line 71. -/
def pyWords (cs : List Char) : List (List Char) := wordsAux [] cs

/-- Python `" ".join(words)`, used at line 71. -/
def joinSp : List (List Char) → List Char
  | [] => []
  | [w] => w
  | w :: ws => w ++ ' ' :: joinSp ws

/-- Embedding of `DuplicateFinder._preprocess_text` (duplicate_finder.py
lines 45-73): falsy-input guard, lowercase, strip fenced code blocks,
strip URLs, replace characters outside `[a-z0-9\s]` with spaces, and
normalize whitespace with `" ".join(text.split())`. -/
def preprocessTextL (cs : List Char) : List Char :=
  if cs.isEmpty then []
  else joinSp (pyWords (filterSpecial (stripUrls (stripCodeBlocks (cs.map pyLower)))))

/-- String-level `_preprocess_text`. -/
def preprocess_text (s : String) : String := ⟨preprocessTextL s.data⟩

/-- Python callers may pass `None`; the guard `if not text` treats `None`
exactly like the empty string. -/
def preprocessTextOpt : Option String → String
  | none => ""
  | some s => preprocess_text s

/-- Embedding of `DuplicateFinder._combine_issue_text` (lines 75-87): the
title is repeated twice before the body (f-string `"{title} {title} {body}"`)
and the combination is preprocessed. -/
def combine_issue_text (title body : String) : String :=
  preprocess_text (title ++ " " ++ title ++ " " ++ body)

/-! ## Data model and Python-level errors -/

/-- Exceptions the embedded code can raise: `KeyError` from dict indexing,
`ValueError` from sklearn's vectorizer, `IndexError` from list indexing,
pydantic's `ValidationError`, and remote embedding-service failures. -/
inductive PyError where
  | keyError : String → PyError
  | valueError : String → PyError
  | indexError : PyError
  | validationError : PyError
  | serviceError : String → PyError
deriving Repr, DecidableEq

/-- Candidate record as passed to the finder: a Python dict with keys
`number`, `title`, `body`, `url`, any of which may be absent (`none`). -/
structure RawIssue where
  number : Option Int
  title : Option String
  body : Option String
  url : Option String
deriving Repr, DecidableEq

/-- Fields of the pydantic `GitHubIssue` model (schemas.py lines 117-128)
read by `duplicate_finder.py`; `body` is `Optional[str]`.  The unused
fields (`state`, `labels`, `comments`, timestamps) are omitted. -/
structure GitHubIssue where
  number : Int
  title : String
  body : Option String
  url : String
deriving Repr, DecidableEq

/-- The pydantic `SimilarIssue` model (schemas.py lines 10-16). -/
structure SimilarIssue where
  issue_number : Int
  title : String
  url : String
  similarity : ℚ
deriving Repr, DecidableEq

/-- Python dict indexing `d[k]`: raises `KeyError` when the key is absent. -/
def getKey {α : Type} (v : Option α) (k : String) : Except PyError α :=
  match v with
  | some a => .ok a
  | none => .error (.keyError k)

/-- Truthiness of an optional string: `None` and `""` are falsy. -/
def pyTruthy : Option String → Bool
  | none => false
  | some s => s ≠ ""

/-- Python `a or b` on optional strings, as in `api_key or os.getenv(...)`. -/
def pyOrStr (a b : Option String) : Option String :=
  if pyTruthy a then a else b

/-- State fixed by `DuplicateFinder.__init__` (lines 17-43).  The OpenAI
client and the `TfidfVectorizer` instance carry no data relevant to the
embedded behavior; which one exists is determined by `use_embeddings`. -/
structure DuplicateFinder where
  use_embeddings : Bool
  similarity_threshold : ℚ
  api_key : Option String
deriving Repr, DecidableEq

/-- Embedding of `DuplicateFinder.__init__` (lines 17-43): the key is
`api_key or os.getenv("OPENAI_API_KEY")` (`envKey` models the environment
lookup); embeddings stay enabled only when requested and a truthy key is
available, otherwise the finder falls back to TF-IDF.  Construction always
succeeds. -/
def mkDuplicateFinder (use_embeddings : Bool) (similarity_threshold : ℚ)
    (api_key : Option String) (envKey : Option String) : DuplicateFinder :=
  let key := pyOrStr api_key envKey
  if use_embeddings ∧ pyTruthy key then
    { use_embeddings := true, similarity_threshold := similarity_threshold, api_key := key }
  else
    { use_embeddings := false, similarity_threshold := similarity_threshold, api_key := key }

/-! ## Rounding and the pydantic similarity bound -/

/-- Round-half-to-even on ℚ, the rounding mode of Python's built-in
`round`.  (The binary floating-point representation is not modelled; the
decimal value is rounded exactly.) -/
def halfEvenRound (q : ℚ) : ℤ :=
  if q - ⌊q⌋ < 1 / 2 then ⌊q⌋
  else if (1 : ℚ) / 2 < q - ⌊q⌋ then ⌊q⌋ + 1
  else if ⌊q⌋ % 2 = 0 then ⌊q⌋ else ⌊q⌋ + 1

/-- Python `round(x, 2)`: round to two decimal places. -/
def round2 (q : ℚ) : ℚ := (halfEvenRound (q * 100) : ℚ) / 100

/-- Construction of the pydantic `SimilarIssue` model: the field declaration
`similarity: float = Field(..., ge=0, le=1)` makes pydantic reject (raise
`ValidationError`) any similarity outside `[0, 1]`. -/
def mkSimilarIssue (n : Int) (t u : String) (sim : ℚ) : Except PyError SimilarIssue :=
  if 0 ≤ sim ∧ sim ≤ 1 then .ok ⟨n, t, u, sim⟩ else .error .validationError

/-! ## Lexical backend: sklearn `TfidfVectorizer` vocabulary model

`_compute_tfidf_similarity` (lines 214-239) calls
`TfidfVectorizer(max_features=5000, stop_words="english", ngram_range=(1, 2))`
followed by `cosine_similarity`.  The vectorizer's tokenization
(`token_pattern=r"(?u)\b\w\w+\b"`: maximal runs of word characters of
length at least two), stop-word removal and unigram/bigram vocabulary are
modelled concretely; `fit_transform` raises
`ValueError("empty vocabulary; perhaps the documents only contain stop words")`
when the corpus contributes no term.  The floating-point tf-idf weighting,
l2 normalization and cosine are not reproduced in ℚ: the numeric scoring
function over a non-empty vocabulary is supplied as the `tfidfCos`
parameter, which no theorem below constrains. -/

/-- Word characters of the regex `\w` (ASCII portion, after lowercasing). -/
def isWordChar (c : Char) : Bool := isKeepChar c || c == '_'

/-- Maximal runs of word characters; `acc` holds the current run reversed. -/
def wordRunsAux : List Char → List Char → List (List Char)
  | acc, [] => if acc.isEmpty then [] else [acc.reverse]
  | acc, c :: cs =>
    if isWordChar c then wordRunsAux (c :: acc) cs
    else if acc.isEmpty then wordRunsAux [] cs
    else acc.reverse :: wordRunsAux [] cs

/-- The vectorizer's tokenizer: lowercase, then keep the word-character runs
of length at least two (`token_pattern=r"(?u)\b\w\w+\b"`). -/
def sklearnTokenize (s : String) : List String :=
  ((wordRunsAux [] (s.data.map pyLower)).filter fun w => 2 ≤ w.length).map fun w => ⟨w⟩

/-- English stop words removed by `stop_words="english"`.  sklearn's frozen
set has 318 entries; a representative subset suffices here because no
theorem below depends on the list's contents (the degenerate-corpus
theorems use corpora with no tokens at all). -/
def englishStopWords : List String :=
  ["a", "about", "above", "after", "again", "all", "am", "an", "and", "any",
   "are", "as", "at", "be", "because", "been", "before", "being", "below",
   "between", "both", "but", "by", "can", "could", "did", "do", "does",
   "down", "during", "each", "few", "for", "from", "further", "had", "has",
   "have", "having", "he", "her", "here", "hers", "him", "his", "how", "i",
   "if", "in", "into", "is", "it", "its", "just", "me", "more", "most",
   "my", "no", "nor", "not", "now", "of", "off", "on", "once", "only",
   "or", "other", "our", "ours", "out", "over", "own", "same", "she",
   "should", "so", "some", "such", "than", "that", "the", "their", "them",
   "then", "there", "these", "they", "this", "those", "through", "to",
   "too", "under", "until", "up", "very", "was", "we", "were", "what",
   "when", "where", "which", "while", "who", "whom", "why", "will", "with",
   "you", "your", "yours"]

/-- Adjacent-token bigrams, joined with one space (`ngram_range=(1, 2)`). -/
def bigrams : List String → List String
  | a :: b :: rest => (a ++ " " ++ b) :: bigrams (b :: rest)
  | _ => []

/-- Terms one document contributes to the vocabulary: its non-stop-word
tokens plus their adjacent bigrams. -/
def docTerms (s : String) : List String :=
  let ts := (sklearnTokenize s).filter fun t => ¬ t ∈ englishStopWords
  ts ++ bigrams ts

/-- The fitted vocabulary of the corpus (as a duplicate-free list; the
`max_features=5000` truncation is not modelled — no theorem below involves
a corpus with more than 5000 distinct terms, and truncation cannot make a
non-empty vocabulary empty because `max_features` is positive). -/
def corpusVocab (texts : List String) : List String :=
  (texts.map docTerms).flatten.eraseDups

/-- Embedding of `_compute_tfidf_similarity` (lines 214-239):
`fit_transform` on `[target] + comparisons` raises sklearn's
empty-vocabulary `ValueError` when no document contributes a term;
otherwise the cosine scores against the target are produced by the
`tfidfCos` parameter (one score per comparison text is the sklearn
contract, not enforced here). -/
def compute_tfidf_similarity (tfidfCos : String → List String → List ℚ)
    (target_text : String) (comparison_texts : List String) : Except PyError (List ℚ) :=
  if corpusVocab (target_text :: comparison_texts) = [] then
    .error (.valueError "empty vocabulary; perhaps the documents only contain stop words")
  else .ok (tfidfCos target_text comparison_texts)

/-! ## Embedding backend -/

/-- Python slicing `t[:8000]` applied to each text before the service call. -/
def truncate8000 (t : String) : String := ⟨t.data.take 8000⟩

/-- Fuelled batching `for i in range(0, len(texts), batch_size)` with
`batch_size = 100`. -/
def chunksF : Nat → List String → List (List String)
  | 0, _ => []
  | _, [] => []
  | fuel + 1, l => l.take 100 :: chunksF fuel (l.drop 100)

/-- Batches of at most 100 texts, in order (lines 115-125). -/
def chunks100 (l : List String) : List (List String) := chunksF l.length l

/-- Embedding of `_get_embeddings_batch` (lines 105-127): texts are cut to
8000 characters, sent to the remote service (`svc`) in sequential batches
of 100, and the per-batch vectors are concatenated in submission order.
Any service failure propagates. -/
def get_embeddings_batch (svc : List String → Except PyError (List (List ℚ)))
    (texts : List String) : Except PyError (List (List ℚ)) :=
  (chunks100 texts).foldlM
    (fun acc batch => do
      let r ← svc (batch.map truncate8000)
      pure (acc ++ r))
    []

/-- Embedding of `_compute_embedding_similarity` (lines 188-212): embed the
target together with all comparison texts, then score each comparison
vector against the target vector.  The numpy `cosine_similarity` on
floating-point vectors is the `cosine` parameter, which no theorem below
constrains; an empty response (which would make `embeddings[0]` fail) is
an error. -/
def compute_embedding_similarity (svc : List String → Except PyError (List (List ℚ)))
    (cosine : List ℚ → List ℚ → ℚ)
    (target_text : String) (comparison_texts : List String) : Except PyError (List ℚ) := do
  let es ← get_embeddings_batch svc (target_text :: comparison_texts)
  match es with
  | [] => .error (.serviceError "empty embedding response")
  | e0 :: rest => pure (rest.map (cosine e0))

/-! ## Ranking -/

/-- Comparison used by `sorted(enumerate(similarities), key=lambda x: x[1],
reverse=True)`: sort by the score component, descending. -/
def scoreDescRel {α : Type} (p q : α × ℚ) : Prop := q.2 ≤ p.2

instance {α : Type} : DecidableRel (@scoreDescRel α) :=
  fun p q => inferInstanceAs (Decidable (q.2 ≤ p.2))

instance {α : Type} : IsTotal (α × ℚ) scoreDescRel :=
  ⟨fun p q => le_total q.2 p.2⟩

instance {α : Type} : IsTrans (α × ℚ) scoreDescRel :=
  ⟨fun _ _ _ h1 h2 => le_trans h2 h1⟩

/-- Python's `sorted` with `key=lambda x: x[1], reverse=True`: a stable sort
placing higher scores first and preserving original order among equal
scores.  `List.insertionSort` with `scoreDescRel` computes exactly that
(stability: an element is inserted before the ties to its right, which
come later in the original list). -/
def pySortDesc {α : Type} (l : List (α × ℚ)) : List (α × ℚ) :=
  List.insertionSort scoreDescRel l

/-- The filtering `[e for e in existing_issues if e["number"] != issue.number]`
(lines 150-153): evaluates `e["number"]` for every candidate, so a missing
`number` key raises `KeyError`. -/
def filterByNumber (n : Int) : List RawIssue → Except PyError (List RawIssue)
  | [] => .ok []
  | e :: es => do
    let m ← getKey e.number "number"
    let rest ← filterByNumber n es
    if m ≠ n then pure (e :: rest) else pure rest

/-- The comprehension building `existing_texts` (lines 160-163):
`_combine_issue_text(e["title"], e.get("body", ""))` — a missing `title`
raises `KeyError`, a missing `body` defaults to `""`. -/
def candidateTexts : List RawIssue → Except PyError (List String)
  | [] => .ok []
  | e :: es => do
    let t ← getKey e.title "title"
    let rest ← candidateTexts es
    pure (combine_issue_text t (e.body.getD "") :: rest)

/-- Python list indexing `existing_issues[idx]`: raises `IndexError` when
out of range. -/
def listGet (l : List RawIssue) (idx : Nat) : Except PyError RawIssue :=
  match l[idx]? with
  | some e => .ok e
  | none => .error .indexError

/-- The result loop of `find_similar_issues` (lines 174-186): walk the
score-sorted `(index, score)` pairs; when the score reaches the threshold
and fewer than `top_k` results have been collected, look up the candidate
by index and append a `SimilarIssue` with the score rounded to two
decimals (pydantic validation applies). `cnt` is `len(similar_issues)`. -/
def rankLoop (filtered : List RawIssue) (threshold : ℚ) (top_k : Nat) :
    List (Nat × ℚ) → Nat → Except PyError (List SimilarIssue)
  | [], _ => .ok []
  | (idx, s) :: rest, cnt =>
    if threshold ≤ s ∧ cnt < top_k then do
      let e ← listGet filtered idx
      let n ← getKey e.number "number"
      let t ← getKey e.title "title"
      let u ← getKey e.url "url"
      let si ← mkSimilarIssue n t u (round2 s)
      let tail ← rankLoop filtered threshold top_k rest (cnt + 1)
      pure (si :: tail)
    else rankLoop filtered threshold top_k rest cnt

/-- Embedding of `find_similar_issues` (lines 129-186) with the similarity
backend abstracted as `score`: empty-candidate short-circuits, self-id
filtering, text preparation, scoring, and the ranked-result loop. -/
def find_similar_issues_with (score : String → List String → Except PyError (List ℚ))
    (f : DuplicateFinder) (issue : GitHubIssue) (existing_issues : List RawIssue)
    (top_k : Nat) : Except PyError (List SimilarIssue) :=
  if existing_issues.isEmpty then .ok []
  else do
    let filtered ← filterByNumber issue.number existing_issues
    if filtered.isEmpty then pure []
    else do
      let target_text := combine_issue_text issue.title (issue.body.getD "")
      let existing_texts ← candidateTexts filtered
      let similarities ← score target_text existing_texts
      rankLoop filtered f.similarity_threshold top_k (pySortDesc similarities.enum) 0

/-- Embedding of `find_similar_issues` with the backend dispatch of
lines 165-172: the embedding backend (remote service `svc`, numeric
`cosine`) when `use_embeddings` is set, otherwise the TF-IDF backend
(numeric `tfidfCos`). -/
def find_similar_issues (svc : List String → Except PyError (List (List ℚ)))
    (cosine : List ℚ → List ℚ → ℚ) (tfidfCos : String → List String → List ℚ)
    (f : DuplicateFinder) (issue : GitHubIssue) (existing_issues : List RawIssue)
    (top_k : Nat) : Except PyError (List SimilarIssue) :=
  find_similar_issues_with
    (fun t cs =>
      if f.use_embeddings then compute_embedding_similarity svc cosine t cs
      else compute_tfidf_similarity tfidfCos t cs)
    f issue existing_issues top_k

/-! ## Exact-duplicate check -/

/-- Loop of `check_exact_duplicate` (lines 254-262): skip candidates with
the target's number (`e["number"]`, `KeyError` possible), return the first
whose normalized title (`e["title"]`, `KeyError` possible) equals the
target's normalized title. -/
def checkExactLoop (issue : GitHubIssue) (normalized_title : String) :
    List RawIssue → Except PyError (Option RawIssue)
  | [] => .ok none
  | e :: es => do
    let n ← getKey e.number "number"
    if n = issue.number then checkExactLoop issue normalized_title es
    else do
      let t ← getKey e.title "title"
      if preprocess_text t = normalized_title then pure (some e)
      else checkExactLoop issue normalized_title es

/-- Embedding of `check_exact_duplicate` (lines 241-262). -/
def check_exact_duplicate (issue : GitHubIssue) (existing_issues : List RawIssue) :
    Except PyError (Option RawIssue) :=
  checkExactLoop issue (preprocess_text issue.title) existing_issues

/-! ## Reference definitions written from the spec's words -/

/-- Reference ranker following the spec (§4.5): pair the candidates with
their aligned scores, keep exactly the pairs with score ≥ threshold, sort
by score descending with ties preserving original candidate order,
truncate to the first `topK`, and round the similarity to two decimals
only in the output.  The `getD` defaults are irrelevant under the
refinement theorem's hypotheses (all fields present). -/
def specRankedMatches (cands : List RawIssue) (scores : List ℚ)
    (threshold : ℚ) (topK : Nat) : List SimilarIssue :=
  let kept := (cands.zip scores).filter fun p => threshold ≤ p.2
  ((pySortDesc kept).take topK).map fun p =>
    { issue_number := p.1.number.getD 0
      title := p.1.title.getD ""
      url := p.1.url.getD ""
      similarity := round2 p.2 }

/-- Match predicate of the spec's exact-duplicate contract (§4.2): a
candidate matches when its id differs from the target's and its normalized
title string-equals the target's normalized title. -/
def specExactMatch (issue : GitHubIssue) (e : RawIssue) : Bool :=
  e.number ≠ some issue.number &&
    preprocess_text (e.title.getD "") = preprocess_text issue.title

/-- Absence of two consecutive space characters, used to state that
normalized output has collapsed whitespace. -/
def noDoubleSpace : List Char → Bool
  | c :: d :: rest => !(c == ' ' && d == ' ') && noDoubleSpace (d :: rest)
  | _ => true

/-- Fill an absent `body` key with the empty string, leaving the other keys
unchanged — used to state that a candidate lacking `body` is treated
exactly like one whose `body` is `""`. -/
def fillBody (e : RawIssue) : RawIssue :=
  { e with body := some (e.body.getD "") }

/-! ## Lemmas about the normalizer -/

lemma isPySpace_space : isPySpace ' ' = true := rfl

lemma ne_space_of_not_isPySpace {c : Char} (h : isPySpace c = false) : c ≠ ' ' := by
  intro hc
  rw [hc] at h
  exact absurd h (by decide)

lemma mem_filterSpecial {c : Char} {cs : List Char} (h : c ∈ filterSpecial cs) :
    isKeepChar c = true ∨ isPySpace c = true := by
  unfold filterSpecial at h
  obtain ⟨d, -, hd⟩ := List.mem_map.mp h
  split at hd
  · next hkeep =>
    subst hd
    simp only [Bool.or_eq_true] at hkeep
    exact hkeep
  · subst hd
    exact Or.inr rfl

lemma joinSp_cons_cons (w v : List Char) (ws : List (List Char)) :
    joinSp (w :: v :: ws) = w ++ ' ' :: joinSp (v :: ws) := rfl

lemma mem_of_mem_joinSp {c : Char} :
    ∀ {ws : List (List Char)}, c ∈ joinSp ws → (∃ w ∈ ws, c ∈ w) ∨ c = ' '
  | [], h => by cases h
  | [w], h => Or.inl ⟨w, List.mem_cons_self .., h⟩
  | w :: v :: ws, h => by
    rw [joinSp_cons_cons] at h
    rcases List.mem_append.mp h with hw | hrest
    · exact Or.inl ⟨w, List.mem_cons_self .., hw⟩
    · rcases List.mem_cons.mp hrest with rfl | hj
      · exact Or.inr rfl
      · rcases mem_of_mem_joinSp hj with ⟨u, hu, hcu⟩ | hsp
        · exact Or.inl ⟨u, List.mem_cons_of_mem w hu, hcu⟩
        · exact Or.inr hsp

lemma wordsAux_good (P : Char → Prop) :
    ∀ (cs acc : List Char),
      (∀ c ∈ acc, P c ∧ isPySpace c = false) →
      (∀ c ∈ cs, isPySpace c = false → P c) →
      ∀ w ∈ wordsAux acc cs, w ≠ [] ∧ ∀ c ∈ w, P c ∧ isPySpace c = false := by
  intro cs
  induction cs with
  | nil =>
    intro acc hacc _ w hw
    unfold wordsAux at hw
    split at hw
    · cases hw
    · next hne =>
      rw [List.mem_singleton] at hw
      subst hw
      refine ⟨fun habs => ?_, fun c hc => hacc c (List.mem_reverse.mp hc)⟩
      rw [List.reverse_eq_nil_iff] at habs
      rw [habs] at hne
      exact hne rfl
  | cons c cs ih =>
    intro acc hacc hcs w hw
    unfold wordsAux at hw
    by_cases hsp : isPySpace c = true
    · rw [if_pos hsp] at hw
      have hcs' : ∀ d ∈ cs, isPySpace d = false → P d :=
        fun d hd => hcs d (List.mem_cons_of_mem c hd)
      by_cases hae : acc.isEmpty
      · rw [if_pos hae] at hw
        exact ih [] (by simp) hcs' w hw
      · rw [if_neg hae] at hw
        rcases List.mem_cons.mp hw with rfl | hw'
        · refine ⟨fun habs => ?_, fun d hd => hacc d (List.mem_reverse.mp hd)⟩
          rw [List.reverse_eq_nil_iff] at habs
          rw [habs] at hae
          exact hae rfl
        · exact ih [] (by simp) hcs' w hw'
    · rw [if_neg hsp] at hw
      refine ih (c :: acc) ?_ (fun d hd => hcs d (List.mem_cons_of_mem c hd)) w hw
      intro d hd
      rcases List.mem_cons.mp hd with rfl | hd'
      · exact ⟨hcs d (List.mem_cons_self ..) (Bool.eq_false_iff.mpr hsp),
          Bool.eq_false_iff.mpr hsp⟩
      · exact hacc d hd'

lemma preprocessTextL_good (cs : List Char) :
    ∃ ws, preprocessTextL cs = joinSp ws ∧
      ∀ w ∈ ws, w ≠ [] ∧ ∀ c ∈ w, isKeepChar c = true ∧ isPySpace c = false := by
  unfold preprocessTextL
  split
  · exact ⟨[], rfl, by simp⟩
  · refine ⟨pyWords (filterSpecial (stripUrls (stripCodeBlocks (cs.map pyLower)))), rfl, ?_⟩
    intro w hw
    refine wordsAux_good (fun c => isKeepChar c = true)
      (filterSpecial (stripUrls (stripCodeBlocks (cs.map pyLower)))) [] (by simp) ?_ w hw
    intro c hc hs
    rcases mem_filterSpecial hc with h | h
    · exact h
    · rw [h] at hs
      cases hs

lemma preprocess_text_data (t : String) :
    (preprocess_text t).data = preprocessTextL t.data := rfl

lemma good_chars_preprocess {t : String} {c : Char} (h : c ∈ (preprocess_text t).data) :
    isKeepChar c = true ∨ c = ' ' := by
  obtain ⟨ws, hws, hgood⟩ := preprocessTextL_good t.data
  rw [preprocess_text_data, hws] at h
  rcases mem_of_mem_joinSp h with ⟨w, hw, hcw⟩ | rfl
  · exact Or.inl ((hgood w hw).2 c hcw).1
  · exact Or.inr rfl

lemma pyLower_good {c : Char} (h : isKeepChar c = true ∨ c = ' ') : pyLower c = c := by
  unfold pyLower
  rw [if_neg]
  rintro ⟨h1, h2⟩
  rcases h with hk | rfl
  · unfold isKeepChar at hk
    simp only [Bool.or_eq_true, Bool.and_eq_true, decide_eq_true_eq] at hk
    omega
  · have hsp : (' ' : Char).toNat = 32 := rfl
    omega

lemma map_pyLower_good {l : List Char} (h : ∀ c ∈ l, isKeepChar c = true ∨ c = ' ') :
    l.map pyLower = l := by
  have heq : l.map pyLower = l.map id := List.map_congr_left fun a ha => pyLower_good (h a ha)
  rw [heq, List.map_id]

lemma good_ne_tick {c : Char} (h : isKeepChar c = true ∨ c = ' ') : c ≠ tick := by
  rintro rfl
  rcases h with hk | hsp
  · exact absurd hk (by decide)
  · exact absurd hsp (by decide)

lemma good_ne_colon {c : Char} (h : isKeepChar c = true ∨ c = ' ') : c ≠ ':' := by
  rintro rfl
  rcases h with hk | hsp
  · exact absurd hk (by decide)
  · exact absurd hsp (by decide)

lemma splitAtTicks_eq_none : ∀ {cs : List Char}, tick ∉ cs → splitAtTicks cs = none
  | [], _ => rfl
  | [_], _ => rfl
  | [_, _], _ => rfl
  | c1 :: c2 :: c3 :: rest, h => by
    unfold splitAtTicks
    rw [if_neg, splitAtTicks_eq_none (fun hm => h (List.mem_cons_of_mem c1 hm))]
    rintro ⟨rfl, -, -⟩
    exact h (List.mem_cons_self ..)

lemma stripCodeBlocks_of_no_tick {cs : List Char} (h : tick ∉ cs) :
    stripCodeBlocks cs = cs := by
  unfold stripCodeBlocks stripCodeBlocksF
  rw [splitAtTicks_eq_none h]

lemma afterScheme_eq_none {cs : List Char} (h : (':' : Char) ∉ cs) :
    afterScheme cs = none := by
  unfold afterScheme
  rw [if_neg, if_neg]
  · intro hp
    exact h ((List.isPrefixOf_iff_prefix.mp hp).subset (by decide))
  · intro hp
    exact h ((List.isPrefixOf_iff_prefix.mp hp).subset (by decide))

lemma stripUrlsF_of_no_colon :
    ∀ (fuel : Nat) {cs : List Char}, (':' : Char) ∉ cs → stripUrlsF fuel cs = cs := by
  intro fuel
  induction fuel with
  | zero => intro cs _; rfl
  | succ fuel ih =>
    intro cs h
    cases cs with
    | nil => rfl
    | cons c cs' =>
      unfold stripUrlsF
      rw [afterScheme_eq_none h, ih (fun hm => h (List.mem_cons_of_mem c hm))]

lemma stripUrls_of_no_colon {cs : List Char} (h : (':' : Char) ∉ cs) :
    stripUrls cs = cs := stripUrlsF_of_no_colon cs.length h

lemma filterSpecial_good {l : List Char} (h : ∀ c ∈ l, isKeepChar c = true ∨ c = ' ') :
    filterSpecial l = l := by
  unfold filterSpecial
  have heq : l.map (fun c => if isKeepChar c || isPySpace c then c else ' ') = l.map id := by
    refine List.map_congr_left fun a ha => ?_
    have hcond : (isKeepChar a || isPySpace a) = true := by
      rcases h a ha with hk | rfl
      · simp [hk]
      · decide
    rw [if_pos hcond]
    rfl
  rw [heq, List.map_id]

lemma wordsAux_append {w : List Char} (hw : ∀ c ∈ w, isPySpace c = false) :
    ∀ (acc cs : List Char), wordsAux acc (w ++ cs) = wordsAux (w.reverse ++ acc) cs := by
  induction w with
  | nil => intro acc cs; simp
  | cons c w ih =>
    intro acc cs
    have hc : isPySpace c = false := hw c (List.mem_cons_self ..)
    have hstep : wordsAux acc (c :: (w ++ cs)) = wordsAux (c :: acc) (w ++ cs) := by
      simp [wordsAux, hc]
    show wordsAux acc (c :: (w ++ cs)) = wordsAux ((c :: w).reverse ++ acc) cs
    rw [hstep, ih (fun d hd => hw d (List.mem_cons_of_mem c hd)) (c :: acc) cs,
      List.reverse_cons, List.append_assoc, List.singleton_append]

lemma pyWords_joinSp : ∀ {ws : List (List Char)},
    (∀ w ∈ ws, w ≠ [] ∧ ∀ c ∈ w, isPySpace c = false) → pyWords (joinSp ws) = ws
  | [], _ => rfl
  | [w], h => by
    obtain ⟨hne, hw⟩ := h w (List.mem_cons_self ..)
    have hne' : ¬ (w.reverse.isEmpty = true) := by
      simp only [List.isEmpty_eq_true, List.reverse_eq_nil_iff]
      exact hne
    show wordsAux [] (joinSp [w]) = [w]
    have hj : joinSp [w] = w ++ [] := by simp [joinSp]
    rw [hj, wordsAux_append hw [] [], List.append_nil]
    have hra : wordsAux w.reverse [] = [w.reverse.reverse] := by
      simp only [wordsAux]
      rw [if_neg hne']
    rw [hra, List.reverse_reverse]
  | w :: v :: ws', h => by
    obtain ⟨hne, hw⟩ := h w (List.mem_cons_self ..)
    have hne' : ¬ (w.reverse.isEmpty = true) := by
      simp only [List.isEmpty_eq_true, List.reverse_eq_nil_iff]
      exact hne
    have hrest : ∀ u ∈ v :: ws', u ≠ [] ∧ ∀ c ∈ u, isPySpace c = false :=
      fun u hu => h u (List.mem_cons_of_mem w hu)
    rw [joinSp_cons_cons]
    show wordsAux [] (w ++ ' ' :: joinSp (v :: ws')) = w :: v :: ws'
    rw [wordsAux_append hw [] (' ' :: joinSp (v :: ws')), List.append_nil]
    have hra : wordsAux w.reverse (' ' :: joinSp (v :: ws')) =
        w.reverse.reverse :: wordsAux [] (joinSp (v :: ws')) := by
      simp only [wordsAux, isPySpace_space]
      rw [if_neg hne']
      exact if_pos trivial
    rw [hra, List.reverse_reverse]
    show w :: pyWords (joinSp (v :: ws')) = w :: v :: ws'
    rw [pyWords_joinSp hrest]

lemma preprocessTextL_joinSp {ws : List (List Char)}
    (h : ∀ w ∈ ws, w ≠ [] ∧ ∀ c ∈ w, isKeepChar c = true ∧ isPySpace c = false) :
    preprocessTextL (joinSp ws) = joinSp ws := by
  have hchars : ∀ c ∈ joinSp ws, isKeepChar c = true ∨ c = ' ' := by
    intro c hc
    rcases mem_of_mem_joinSp hc with ⟨w, hw, hcw⟩ | rfl
    · exact Or.inl ((h w hw).2 c hcw).1
    · exact Or.inr rfl
  unfold preprocessTextL
  split
  · next he => exact (List.isEmpty_iff.mp he).symm
  · rw [map_pyLower_good hchars,
      stripCodeBlocks_of_no_tick (fun hm => good_ne_tick (hchars _ hm) rfl),
      stripUrls_of_no_colon (fun hm => good_ne_colon (hchars _ hm) rfl),
      filterSpecial_good hchars,
      pyWords_joinSp (fun w hw => ⟨(h w hw).1, fun c hc => ((h w hw).2 c hc).2⟩)]

lemma noDoubleSpace_of_no_space {l : List Char} (h : ∀ c ∈ l, c ≠ ' ') :
    noDoubleSpace l = true := by
  induction l with
  | nil => rfl
  | cons c l ih =>
    cases l with
    | nil => rfl
    | cons d l' =>
      simp only [noDoubleSpace, Bool.and_eq_true, Bool.not_eq_true']
      refine ⟨?_, ih fun x hx => h x (List.mem_cons_of_mem c hx)⟩
      have hc : c ≠ ' ' := h c (List.mem_cons_self ..)
      simp [hc]

lemma noDoubleSpace_append {w rest : List Char} (hw : ∀ c ∈ w, c ≠ ' ')
    (hr : noDoubleSpace rest = true) : noDoubleSpace (w ++ rest) = true := by
  induction w with
  | nil => simpa
  | cons c w ih =>
    have hc : c ≠ ' ' := hw c (List.mem_cons_self ..)
    have htail : noDoubleSpace (w ++ rest) = true :=
      ih fun x hx => hw x (List.mem_cons_of_mem c hx)
    show noDoubleSpace (c :: (w ++ rest)) = true
    cases hwr : w ++ rest with
    | nil => rfl
    | cons d l' =>
      rw [hwr] at htail
      simp only [noDoubleSpace, Bool.and_eq_true, Bool.not_eq_true']
      exact ⟨by simp [hc], htail⟩

lemma joinSp_cons_ne_nil {v : List Char} (hv : v ≠ []) (ws' : List (List Char)) :
    joinSp (v :: ws') ≠ [] := by
  cases ws' with
  | nil => exact hv
  | cons u ws'' =>
    rw [joinSp_cons_cons]
    simp

lemma joinSp_head?_eq {v : List Char} (hv : v ≠ []) (ws' : List (List Char)) :
    (joinSp (v :: ws')).head? = v.head? := by
  cases ws' with
  | nil => rfl
  | cons u ws'' =>
    rw [joinSp_cons_cons]
    cases v with
    | nil => exact absurd rfl hv
    | cons c v' => rfl

lemma joinSp_head_not_space {ws : List (List Char)}
    (h : ∀ w ∈ ws, w ≠ [] ∧ ∀ c ∈ w, isPySpace c = false) :
    (joinSp ws).head? ≠ some ' ' := by
  cases ws with
  | nil => simp [joinSp]
  | cons v ws' =>
    obtain ⟨hv, hvc⟩ := h v (List.mem_cons_self ..)
    rw [joinSp_head?_eq hv]
    cases v with
    | nil => exact absurd rfl hv
    | cons c v' =>
      intro hc
      rw [List.head?_cons, Option.some_inj] at hc
      exact ne_space_of_not_isPySpace (hvc c (List.mem_cons_self ..)) hc

lemma getLast?_no_space {w : List Char} (hw : ∀ c ∈ w, isPySpace c = false) :
    w.getLast? ≠ some ' ' := by
  induction w with
  | nil => simp
  | cons c w ih =>
    cases w with
    | nil =>
      intro hc
      rw [List.getLast?_singleton, Option.some_inj] at hc
      exact ne_space_of_not_isPySpace (hw c (List.mem_cons_self ..)) hc
    | cons d w' =>
      rw [List.getLast?_cons_cons]
      exact ih fun x hx => hw x (List.mem_cons_of_mem c hx)

lemma joinSp_getLast_not_space :
    ∀ {ws : List (List Char)},
      (∀ w ∈ ws, w ≠ [] ∧ ∀ c ∈ w, isPySpace c = false) →
      (joinSp ws).getLast? ≠ some ' '
  | [], _ => by simp [joinSp]
  | [w], h => getLast?_no_space (h w (List.mem_cons_self ..)).2
  | w :: v :: ws', h => by
    have hrest : ∀ u ∈ v :: ws', u ≠ [] ∧ ∀ c ∈ u, isPySpace c = false :=
      fun u hu => h u (List.mem_cons_of_mem w hu)
    have hv : v ≠ [] := (hrest v (List.mem_cons_self ..)).1
    have hJ : joinSp (v :: ws') ≠ [] := joinSp_cons_ne_nil hv ws'
    rw [joinSp_cons_cons, List.getLast?_append_of_ne_nil w (by simp)]
    cases hj : joinSp (v :: ws') with
    | nil => exact absurd hj hJ
    | cons j J' =>
      rw [List.getLast?_cons_cons]
      have := joinSp_getLast_not_space hrest
      rw [hj] at this
      exact this

lemma joinSp_noDoubleSpace :
    ∀ {ws : List (List Char)},
      (∀ w ∈ ws, w ≠ [] ∧ ∀ c ∈ w, isPySpace c = false) →
      noDoubleSpace (joinSp ws) = true
  | [], _ => rfl
  | [w], h =>
    noDoubleSpace_of_no_space fun c hc =>
      ne_space_of_not_isPySpace ((h w (List.mem_cons_self ..)).2 c hc)
  | w :: v :: ws', h => by
    have hrest : ∀ u ∈ v :: ws', u ≠ [] ∧ ∀ c ∈ u, isPySpace c = false :=
      fun u hu => h u (List.mem_cons_of_mem w hu)
    have hv : v ≠ [] := (hrest v (List.mem_cons_self ..)).1
    rw [joinSp_cons_cons]
    refine noDoubleSpace_append
      (fun c hc => ne_space_of_not_isPySpace ((h w (List.mem_cons_self ..)).2 c hc)) ?_
    have hJnds : noDoubleSpace (joinSp (v :: ws')) = true := joinSp_noDoubleSpace hrest
    cases hj : joinSp (v :: ws') with
    | nil => rfl
    | cons j J' =>
      have hjh : (joinSp (v :: ws')).head? = v.head? := joinSp_head?_eq hv ws'
      rw [hj, List.head?_cons] at hjh
      have hjne : j ≠ ' ' := by
        cases v with
        | nil => exact absurd rfl hv
        | cons c v' =>
          rw [List.head?_cons, Option.some_inj] at hjh
          rw [hjh]
          exact ne_space_of_not_isPySpace
            ((hrest (c :: v') (List.mem_cons_self ..)).2 c (List.mem_cons_self ..))
      rw [hj] at hJnds
      show noDoubleSpace (' ' :: j :: J') = true
      simp only [noDoubleSpace, Bool.and_eq_true, Bool.not_eq_true']
      exact ⟨by simp [hjne], hJnds⟩

/-! ## Claims C6 and C7: normalizer output shape and idempotence -/

/-- C6: for every input (including the None-equivalent), the normalized text
contains no backtick (hence no fenced code block), no `http://` or
`https://` substring, and no character outside lowercase ASCII letters,
digits, and single spaces (whitespace collapsed, not leading or trailing);
and the empty string and the None-equivalent both normalize to the empty
string without error. -/
theorem claim_C6_normalize_charset (t : Option String) :
    (∀ c ∈ (preprocessTextOpt t).data, isKeepChar c = true ∨ c = ' ') ∧
    tick ∉ (preprocessTextOpt t).data ∧
    ¬ ("http://".data <:+: (preprocessTextOpt t).data) ∧
    ¬ ("https://".data <:+: (preprocessTextOpt t).data) ∧
    noDoubleSpace (preprocessTextOpt t).data = true ∧
    (preprocessTextOpt t).data.head? ≠ some ' ' ∧
    (preprocessTextOpt t).data.getLast? ≠ some ' ' ∧
    preprocessTextOpt none = "" ∧ preprocess_text "" = "" := by
  have key : ∀ (s : String),
      (∀ c ∈ (preprocess_text s).data, isKeepChar c = true ∨ c = ' ') ∧
      noDoubleSpace (preprocess_text s).data = true ∧
      (preprocess_text s).data.head? ≠ some ' ' ∧
      (preprocess_text s).data.getLast? ≠ some ' ' := by
    intro s
    obtain ⟨ws, hws, hgood⟩ := preprocessTextL_good s.data
    have hgood' : ∀ w ∈ ws, w ≠ [] ∧ ∀ c ∈ w, isPySpace c = false :=
      fun w hw => ⟨(hgood w hw).1, fun c hc => ((hgood w hw).2 c hc).2⟩
    rw [preprocess_text_data, hws]
    refine ⟨?_, joinSp_noDoubleSpace hgood', joinSp_head_not_space hgood',
      joinSp_getLast_not_space hgood'⟩
    intro c hc
    rcases mem_of_mem_joinSp hc with ⟨w, hw, hcw⟩ | rfl
    · exact Or.inl ((hgood w hw).2 c hcw).1
    · exact Or.inr rfl
  cases t with
  | none =>
    refine ⟨by simp [preprocessTextOpt], by simp [preprocessTextOpt], ?_, ?_,
      rfl, by simp [preprocessTextOpt], by simp [preprocessTextOpt], rfl, rfl⟩
    · intro hinf
      have := List.eq_nil_of_infix_nil hinf
      simp at this
    · intro hinf
      have := List.eq_nil_of_infix_nil hinf
      simp at this
  | some s =>
    obtain ⟨hcs, hnds, hh, hl⟩ := key s
    refine ⟨hcs, ?_, ?_, ?_, hnds, hh, hl, rfl, rfl⟩
    · intro hmem
      exact good_ne_tick (hcs tick hmem) rfl
    · intro hinf
      have hcolon : (':' : Char) ∈ (preprocess_text s).data := hinf.subset (by decide)
      exact good_ne_colon (hcs _ hcolon) rfl
    · intro hinf
      have hcolon : (':' : Char) ∈ (preprocess_text s).data := hinf.subset (by decide)
      exact good_ne_colon (hcs _ hcolon) rfl

/-- Witness for C6 at a concrete input, via the theorem itself. -/
theorem claim_C6_witness :
    ¬ ("http://".data <:+:
      (preprocessTextOpt (some "See https://a.b and ```x``` Now!")).data) :=
  (claim_C6_normalize_charset (some "See https://a.b and ```x``` Now!")).2.2.1

/-- C7: the normalizer is idempotent — normalizing an already-normalized
string changes nothing. -/
theorem claim_C7_normalize_idempotent (t : String) :
    preprocess_text (preprocess_text t) = preprocess_text t := by
  obtain ⟨ws, hws, hgood⟩ := preprocessTextL_good t.data
  have h2 : preprocessTextL (preprocessTextL t.data) = preprocessTextL t.data := by
    rw [hws]
    exact preprocessTextL_joinSp hgood
  show (⟨preprocessTextL (preprocess_text t).data⟩ : String) = preprocess_text t
  rw [preprocess_text_data, h2]
  rfl

/-- Witness for C7 at a concrete input, via the theorem itself. -/
theorem claim_C7_witness :
    preprocess_text (preprocess_text "A  title: with ```code``` and UPPER case!") =
      preprocess_text "A  title: with ```code``` and UPPER case!" :=
  claim_C7_normalize_idempotent "A  title: with ```code``` and UPPER case!"

/-! ## Lemmas about the finder pipeline -/

lemma except_bind_ok {α β : Type} {x : Except PyError α} {g : α → Except PyError β} {r : β}
    (h : x >>= g = .ok r) : ∃ a, x = .ok a ∧ g a = .ok r := by
  cases x with
  | error e => simp [Bind.bind, Except.bind] at h
  | ok a => exact ⟨a, rfl, by simpa [Bind.bind, Except.bind] using h⟩

lemma getKey_ok {α : Type} {v : Option α} {k : String} {a : α}
    (h : getKey v k = .ok a) : v = some a := by
  cases v with
  | none => simp [getKey] at h
  | some b =>
    simp only [getKey, Except.ok.injEq] at h
    rw [h]

lemma filterByNumber_ok_mem {n : Int} :
    ∀ {l fl : List RawIssue}, filterByNumber n l = .ok fl →
      ∀ e ∈ fl, e ∈ l ∧ ∃ m, e.number = some m ∧ m ≠ n
  | [], fl, h => by
    simp only [filterByNumber, Except.ok.injEq] at h
    subst h
    intro e he
    cases he
  | e' :: es, fl, h => by
    rw [filterByNumber] at h
    obtain ⟨m, hm, h⟩ := except_bind_ok h
    obtain ⟨rest, hrest, h⟩ := except_bind_ok h
    intro e he
    split at h
    · next hne =>
      simp only [pure, Except.pure, Except.ok.injEq] at h
      subst h
      rcases List.mem_cons.mp he with rfl | he'
      · exact ⟨List.mem_cons_self .., m, getKey_ok hm, hne⟩
      · obtain ⟨hmem, hex⟩ := filterByNumber_ok_mem hrest e he'
        exact ⟨List.mem_cons_of_mem e' hmem, hex⟩
    · simp only [pure, Except.pure, Except.ok.injEq] at h
      subst h
      obtain ⟨hmem, hex⟩ := filterByNumber_ok_mem hrest e he
      exact ⟨List.mem_cons_of_mem e' hmem, hex⟩

lemma rankLoop_ok_mem {filtered : List RawIssue} {θ : ℚ} {k : Nat} :
    ∀ {pairs : List (Nat × ℚ)} {cnt : Nat} {res : List SimilarIssue},
      rankLoop filtered θ k pairs cnt = .ok res →
      ∀ m ∈ res,
        (∃ e ∈ filtered, e.number = some m.issue_number ∧
          e.title = some m.title ∧ e.url = some m.url) ∧
        (∃ s, θ ≤ s ∧ m.similarity = round2 s) ∧
        0 ≤ m.similarity ∧ m.similarity ≤ 1
  | [], cnt, res, h => by
    simp only [rankLoop, Except.ok.injEq] at h
    subst h
    intro m hm
    cases hm
  | (idx, s) :: rest, cnt, res, h => by
    rw [rankLoop] at h
    split at h
    · next hcond =>
      obtain ⟨e, he, h⟩ := except_bind_ok h
      obtain ⟨n, hn, h⟩ := except_bind_ok h
      obtain ⟨t, ht, h⟩ := except_bind_ok h
      obtain ⟨u, hu, h⟩ := except_bind_ok h
      obtain ⟨si, hsi, h⟩ := except_bind_ok h
      obtain ⟨tail, htail, h⟩ := except_bind_ok h
      simp only [pure, Except.pure, Except.ok.injEq] at h
      subst h
      have hemem : e ∈ filtered := by
        unfold listGet at he
        cases hfe : filtered[idx]? with
        | none => rw [hfe] at he; cases he
        | some e' =>
          rw [hfe] at he
          cases he
          exact List.getElem?_mem hfe
      have hsi' : 0 ≤ round2 s ∧ round2 s ≤ 1 ∧ si = ⟨n, t, u, round2 s⟩ := by
        unfold mkSimilarIssue at hsi
        split at hsi
        · next hb =>
          cases hsi
          exact ⟨hb.1, hb.2, rfl⟩
        · cases hsi
      intro m hm
      rcases List.mem_cons.mp hm with rfl | hm'
      · obtain ⟨hb0, hb1, rfl⟩ := hsi'
        exact ⟨⟨e, hemem, getKey_ok hn, getKey_ok ht, getKey_ok hu⟩,
          ⟨s, hcond.1, rfl⟩, hb0, hb1⟩
      · exact rankLoop_ok_mem htail m hm'
    · exact rankLoop_ok_mem h


lemma checkExactLoop_cons {e : RawIssue} {n : Int} {t : String}
    (issue : GitHubIssue) (nt : String) (es : List RawIssue)
    (hn : e.number = some n) (ht : e.title = some t) :
    checkExactLoop issue nt (e :: es) =
      if n = issue.number then checkExactLoop issue nt es
      else if preprocess_text t = nt then .ok (some e)
      else checkExactLoop issue nt es := by
  rw [checkExactLoop, hn, ht]
  rfl

lemma checkExactLoop_eq_find :
    ∀ {existing : List RawIssue},
      (∀ e ∈ existing, e.number.isSome ∧ e.title.isSome) →
      ∀ (issue : GitHubIssue) (nt : String),
      checkExactLoop issue nt existing =
        .ok (existing.find? fun e =>
          e.number ≠ some issue.number && preprocess_text (e.title.getD "") = nt)
  | [], _, issue, nt => rfl
  | e :: es, h, issue, nt => by
    obtain ⟨hn, ht⟩ := h e (List.mem_cons_self ..)
    obtain ⟨n, hn'⟩ := Option.isSome_iff_exists.mp hn
    obtain ⟨t, ht'⟩ := Option.isSome_iff_exists.mp ht
    have ih := checkExactLoop_eq_find (fun x hx => h x (List.mem_cons_of_mem e hx)) issue nt
    rw [checkExactLoop_cons issue nt es hn' ht', List.find?_cons]
    by_cases hni : n = issue.number
    · have hp : (e.number ≠ some issue.number &&
          preprocess_text (e.title.getD "") = nt) = false := by
        subst hni
        simp [hn']
      rw [if_pos hni, hp, ih]
    · have hne : e.number ≠ some issue.number := by
        rw [hn']
        intro hc
        exact hni (Option.some_inj.mp hc)
      by_cases hpt : preprocess_text t = nt
      · have hp : (e.number ≠ some issue.number &&
            preprocess_text (e.title.getD "") = nt) = true := by
          simp [hne, ht', hpt]
        rw [if_neg hni, if_pos hpt, hp]
      · have hp : (e.number ≠ some issue.number &&
            preprocess_text (e.title.getD "") = nt) = false := by
          simp [ht', hpt]
        rw [if_neg hni, if_neg hpt, hp, ih]

lemma checkExactLoop_ok_some :
    ∀ {l : List RawIssue} {issue : GitHubIssue} {nt : String} {e : RawIssue},
      checkExactLoop issue nt l = .ok (some e) → e.number ≠ some issue.number
  | [], _, _, _, h => by cases h
  | e' :: es, issue, nt, e, h => by
    rw [checkExactLoop] at h
    cases hn : e'.number with
    | none =>
      rw [hn] at h
      simp [getKey, Bind.bind, Except.bind] at h
    | some n =>
      rw [hn] at h
      simp only [getKey] at h
      have h' : (if n = issue.number then checkExactLoop issue nt es
          else do
            let t ← getKey e'.title "title"
            if preprocess_text t = nt then pure (some e')
            else checkExactLoop issue nt es) = .ok (some e) := h
      split at h'
      · exact checkExactLoop_ok_some h'
      · next hni =>
        cases ht : e'.title with
        | none =>
          rw [ht] at h'
          simp [getKey, Bind.bind, Except.bind] at h'
        | some t =>
          rw [ht] at h'
          simp only [getKey] at h'
          have h'' : (if preprocess_text t = nt then (pure (some e') : Except PyError (Option RawIssue))
              else checkExactLoop issue nt es) = .ok (some e) := h'
          split at h''
          · simp only [pure, Except.pure, Except.ok.injEq, Option.some_inj] at h''
            subst h''
            rw [hn]
            intro hc
            exact hni (Option.some_inj.mp hc)
          · exact checkExactLoop_ok_some h''

lemma find_similar_issues_with_ok_mem
    {score : String → List String → Except PyError (List ℚ)}
    {f : DuplicateFinder} {issue : GitHubIssue} {existing : List RawIssue}
    {top_k : Nat} {res : List SimilarIssue}
    (h : find_similar_issues_with score f issue existing top_k = .ok res) :
    ∀ m ∈ res, (∃ e ∈ existing, e.number = some m.issue_number ∧
        e.title = some m.title ∧ e.url = some m.url) ∧
      m.issue_number ≠ issue.number ∧
      (∃ s, f.similarity_threshold ≤ s ∧ m.similarity = round2 s) ∧
      0 ≤ m.similarity ∧ m.similarity ≤ 1 := by
  unfold find_similar_issues_with at h
  split at h
  · cases h
    intro m hm
    cases hm
  · obtain ⟨filtered, hfil, h⟩ := except_bind_ok h
    split at h
    · simp only [pure, Except.pure, Except.ok.injEq] at h
      subst h
      intro m hm
      cases hm
    · obtain ⟨texts, htexts, h⟩ := except_bind_ok h
      obtain ⟨sims, hsims, h⟩ := except_bind_ok h
      intro m hm
      obtain ⟨⟨e, hefil, hen, het, heu⟩, hs, hb0, hb1⟩ := rankLoop_ok_mem h m hm
      obtain ⟨hemem, m', hm', hne⟩ := filterByNumber_ok_mem hfil e hefil
      refine ⟨⟨e, hemem, hen, het, heu⟩, ?_, hs, hb0, hb1⟩
      rw [hen] at hm'
      rw [Option.some_inj.mp hm']
      exact hne

/-! ## Claims C4, C5, C9, C10 -/

/-- C4: neither find_similar_issues nor check_exact_duplicate ever returns a
result whose id equals the target's id — candidates with the target's
number are excluded before scoring or matching, for any backend. -/
theorem claim_C4_target_excluded
    (svc : List String → Except PyError (List (List ℚ)))
    (cosine : List ℚ → List ℚ → ℚ) (tfidfCos : String → List String → List ℚ)
    (f : DuplicateFinder) (issue : GitHubIssue) (existing : List RawIssue) (top_k : Nat) :
    (∀ res, find_similar_issues svc cosine tfidfCos f issue existing top_k = .ok res →
      ∀ m ∈ res, m.issue_number ≠ issue.number) ∧
    (∀ e, check_exact_duplicate issue existing = .ok (some e) →
      e.number ≠ some issue.number) := by
  constructor
  · intro res h m hm
    exact (find_similar_issues_with_ok_mem h m hm).2.1
  · intro e h
    exact checkExactLoop_ok_some h

/-- C5: check_exact_duplicate returns (as `.ok`) the first candidate in
candidate-list order whose id differs from the target's and whose
normalized title string-equals the target's normalized title, and `none`
when no such candidate exists (`List.find?` is exactly that first-match
semantics). -/
theorem claim_C5_exact_first_match (issue : GitHubIssue) (existing : List RawIssue)
    (h : ∀ e ∈ existing, e.number.isSome ∧ e.title.isSome) :
    check_exact_duplicate issue existing =
      .ok (existing.find? (specExactMatch issue)) := by
  unfold check_exact_duplicate
  rw [checkExactLoop_eq_find h issue (preprocess_text issue.title)]
  rfl

/-- C9: every similarity attached to a returned result lies in [0, 1], for
either backend and whatever vectors the embedding service returns — the
pydantic bound `ge=0, le=1` on `SimilarIssue.similarity` guarantees it
(an out-of-range score raises instead of being returned). -/
theorem claim_C9_similarity_in_unit_interval
    (svc : List String → Except PyError (List (List ℚ)))
    (cosine : List ℚ → List ℚ → ℚ) (tfidfCos : String → List String → List ℚ)
    (f : DuplicateFinder) (issue : GitHubIssue) (existing : List RawIssue)
    (top_k : Nat) (res : List SimilarIssue)
    (h : find_similar_issues svc cosine tfidfCos f issue existing top_k = .ok res) :
    ∀ m ∈ res, 0 ≤ m.similarity ∧ m.similarity ≤ 1 := by
  intro m hm
  have hfacts := find_similar_issues_with_ok_mem h m hm
  exact ⟨hfacts.2.2.2.1, hfacts.2.2.2.2⟩

/-- C10: when both the target's title and some candidate's title (different
id) normalize to the empty string, check_exact_duplicate reports an exact
duplicate: the first such candidate is returned — normalized-title
equality has no guard against both titles being empty. -/
theorem claim_C10_empty_titles_match (issue : GitHubIssue) (existing : List RawIssue)
    (h : ∀ e ∈ existing, e.number.isSome ∧ e.title.isSome)
    (htitle : preprocess_text issue.title = "")
    (e : RawIssue) (he : e ∈ existing)
    (hid : e.number ≠ some issue.number)
    (hempty : preprocess_text (e.title.getD "") = "") :
    ∃ e₀, check_exact_duplicate issue existing = .ok (some e₀) ∧
      existing.find? (specExactMatch issue) = some e₀ ∧
      e₀.number ≠ some issue.number ∧
      preprocess_text (e₀.title.getD "") = "" := by
  have hsome : (existing.find? (specExactMatch issue)).isSome := by
    rw [List.find?_isSome]
    refine ⟨e, he, ?_⟩
    unfold specExactMatch
    rw [htitle]
    simp [hid, hempty]
  obtain ⟨e₀, he₀⟩ := Option.isSome_iff_exists.mp hsome
  have hp := List.find?_some he₀
  unfold specExactMatch at hp
  rw [htitle] at hp
  simp only [Bool.and_eq_true, decide_eq_true_eq] at hp
  refine ⟨e₀, ?_, he₀, hp.1, hp.2⟩
  unfold check_exact_duplicate
  rw [checkExactLoop_eq_find h issue (preprocess_text issue.title)]
  rw [show (existing.find? fun e =>
      e.number ≠ some issue.number && preprocess_text (e.title.getD "") =
        preprocess_text issue.title) = existing.find? (specExactMatch issue) from rfl]
  rw [he₀]

/-- Witness for C4 at a concrete input, via the theorem itself. -/
theorem claim_C4_witness :
    (⟨2, "hello world", "u1", 1⟩ : SimilarIssue).issue_number ≠
      (⟨1, "hello world", some "", "u0"⟩ : GitHubIssue).number :=
  (claim_C4_target_excluded (fun _ => .error (.serviceError "x")) (fun _ _ => 0)
      (fun _ _ => [1]) (mkDuplicateFinder false (3/4) none none)
      ⟨1, "hello world", some "", "u0"⟩
      [⟨some 2, some "hello world", some "", some "u1"⟩] 3).1
    [⟨2, "hello world", "u1", 1⟩] (by rfl) _ (List.mem_cons_self ..)

/-- Witness for C5 at the spec's scenario, via the theorem itself. -/
theorem claim_C5_witness :
    check_exact_duplicate ⟨123, "Bug: App crashes on startup", some "d", "u"⟩
      [⟨some 100, some "Bug: App crashes on startup", some "x", some "u1"⟩,
       ⟨some 101, some "Different issue", some "y", some "u2"⟩] =
      .ok (some ⟨some 100, some "Bug: App crashes on startup", some "x", some "u1"⟩) := by
  rw [claim_C5_exact_first_match _ _ (by decide)]
  rfl

/-- Witness for C9 at a concrete input on the embedding path, via the
theorem itself. -/
theorem claim_C9_witness :
    0 ≤ (⟨2, "hello world", "u1", 1⟩ : SimilarIssue).similarity ∧
      (⟨2, "hello world", "u1", 1⟩ : SimilarIssue).similarity ≤ 1 :=
  claim_C9_similarity_in_unit_interval (fun ts => .ok (ts.map fun _ => [1]))
    (fun _ _ => 1) (fun _ _ => []) (mkDuplicateFinder true (1/2) (some "key") none)
    ⟨1, "hello world", some "", "u0"⟩
    [⟨some 2, some "hello world", some "", some "u1"⟩] 3
    [⟨2, "hello world", "u1", 1⟩] (by rfl) _ (List.mem_cons_self ..)

/-- Witness for C10 at a concrete input (titles of punctuation only), via
the theorem itself. -/
theorem claim_C10_witness :
    check_exact_duplicate ⟨1, "!!!", none, "u"⟩ [⟨some 2, some "???", none, none⟩] =
      .ok (some ⟨some 2, some "???", none, none⟩) := by
  obtain ⟨e₀, hrun, hfind, -, -⟩ :=
    claim_C10_empty_titles_match ⟨1, "!!!", none, "u"⟩ [⟨some 2, some "???", none, none⟩]
      (by decide) (by rfl) ⟨some 2, some "???", none, none⟩ (List.mem_cons_self ..)
      (by decide) (by rfl)
  have hf : ([⟨some 2, some "???", none, none⟩] : List RawIssue).find?
      (specExactMatch ⟨1, "!!!", none, "u"⟩) =
      some ⟨some 2, some "???", none, none⟩ := by decide
  rw [hf, Option.some_inj] at hfind
  rw [← hfind] at hrun
  exact hrun

/-! ## Claim C8: credential fallback -/

/-- C8: construction with embeddings requested but no usable credential
(argument falsy and environment variable falsy) always succeeds and falls
back to the lexical backend; every subsequent find_similar_issues call on
that finder runs the TF-IDF path, and its outcome is independent of the
embedding service and its cosine — no external call is consulted. -/
theorem claim_C8_credential_fallback (similarity_threshold : ℚ)
    (api_key envKey : Option String)
    (hkey : pyTruthy (pyOrStr api_key envKey) = false)
    (svc svc' : List String → Except PyError (List (List ℚ)))
    (cosine cosine' : List ℚ → List ℚ → ℚ) (tfidfCos : String → List String → List ℚ)
    (issue : GitHubIssue) (existing : List RawIssue) (top_k : Nat) :
    (mkDuplicateFinder true similarity_threshold api_key envKey).use_embeddings = false ∧
    find_similar_issues svc cosine tfidfCos
        (mkDuplicateFinder true similarity_threshold api_key envKey)
        issue existing top_k =
      find_similar_issues_with (compute_tfidf_similarity tfidfCos)
        (mkDuplicateFinder true similarity_threshold api_key envKey)
        issue existing top_k ∧
    find_similar_issues svc cosine tfidfCos
        (mkDuplicateFinder true similarity_threshold api_key envKey)
        issue existing top_k =
      find_similar_issues svc' cosine' tfidfCos
        (mkDuplicateFinder true similarity_threshold api_key envKey)
        issue existing top_k := by
  have hemb : (mkDuplicateFinder true similarity_threshold api_key envKey).use_embeddings
      = false := by
    unfold mkDuplicateFinder
    rw [if_neg]
    · rintro ⟨-, htruthy⟩
      rw [hkey] at htruthy
      exact Bool.false_ne_true htruthy
  have hsc : ∀ (s : List String → Except PyError (List (List ℚ)))
      (c : List ℚ → List ℚ → ℚ),
      find_similar_issues s c tfidfCos
          (mkDuplicateFinder true similarity_threshold api_key envKey)
          issue existing top_k =
        find_similar_issues_with (compute_tfidf_similarity tfidfCos)
          (mkDuplicateFinder true similarity_threshold api_key envKey)
          issue existing top_k := by
    intro s c
    unfold find_similar_issues
    congr 1
    funext t cs
    rw [hemb]
    simp
  exact ⟨hemb, hsc svc cosine, (hsc svc cosine).trans (hsc svc' cosine').symm⟩

/-- Witness for C8 at a concrete input, via the theorem itself. -/
theorem claim_C8_witness :
    (mkDuplicateFinder true (3/4) none none).use_embeddings = false :=
  (claim_C8_credential_fallback (3/4) none none (by rfl)
    (fun _ => .error (.serviceError "a")) (fun _ => .error (.serviceError "b"))
    (fun _ _ => 0) (fun _ _ => 1) (fun _ _ => [])
    ⟨1, "t", none, "u"⟩ [] 3).1

/-! ## Claims C1 and C2: degenerate corpus and malformed candidates -/

lemma ok_bind {α β : Type} (a : α) (g : α → Except PyError β) :
    (Except.ok a >>= g : Except PyError β) = g a := rfl

lemma error_bind {α β : Type} (e : PyError) (g : α → Except PyError β) :
    (Except.error e >>= g : Except PyError β) = Except.error e := rfl

lemma find_similar_issues_with_eq
    {score : String → List String → Except PyError (List ℚ)}
    {f : DuplicateFinder} {issue : GitHubIssue} {existing : List RawIssue}
    {top_k : Nat} {filtered : List RawIssue} {texts : List String}
    (hne : existing.isEmpty = false)
    (hfil : filterByNumber issue.number existing = .ok filtered)
    (hfe : filtered.isEmpty = false)
    (htexts : candidateTexts filtered = .ok texts) :
    find_similar_issues_with score f issue existing top_k =
      (score (combine_issue_text issue.title (issue.body.getD "")) texts >>= fun sims =>
        rankLoop filtered f.similarity_threshold top_k (pySortDesc sims.enum) 0) := by
  unfold find_similar_issues_with
  rw [if_neg (by rw [hne]; exact Bool.false_ne_true), hfil, ok_bind]
  rw [if_neg (by rw [hfe]; exact Bool.false_ne_true), htexts, ok_bind]

/-- C1 counterexample: with the lexical backend and an all-empty corpus
(the target and the only candidate have empty title and body), the claim
says find_similar_issues returns all-zero similarity scores, hence `ok []`
under the 0.75 threshold, without error; the code instead propagates
sklearn's empty-vocabulary `ValueError` out of `fit_transform`. -/
theorem claim_C1_counterexample :
    find_similar_issues (fun _ => .error (.serviceError "x")) (fun _ _ => 0) (fun _ _ => [])
      (mkDuplicateFinder false (3/4) none none) ⟨1, "", some "", "u"⟩
      [⟨some 2, some "", some "", some "u1"⟩] 3 =
      .error (.valueError
        "empty vocabulary; perhaps the documents only contain stop words") := by
  rfl

/-- C1 amended: for the lexical backend, when the fitted corpus (the
target's combined text followed by the candidates' combined texts) yields
no usable vocabulary, find_similar_issues does not return all-zero
similarity scores: it propagates
`ValueError("empty vocabulary; perhaps the documents only contain stop words")`
raised by `TfidfVectorizer.fit_transform`. -/
theorem claim_C1_empty_vocab_raises
    (svc : List String → Except PyError (List (List ℚ)))
    (cosine : List ℚ → List ℚ → ℚ) (tfidfCos : String → List String → List ℚ)
    (f : DuplicateFinder) (hf : f.use_embeddings = false)
    (issue : GitHubIssue) (existing : List RawIssue) (top_k : Nat)
    (filtered : List RawIssue) (texts : List String)
    (hne : existing.isEmpty = false)
    (hfil : filterByNumber issue.number existing = .ok filtered)
    (hfe : filtered.isEmpty = false)
    (htexts : candidateTexts filtered = .ok texts)
    (hvocab : corpusVocab
      (combine_issue_text issue.title (issue.body.getD "") :: texts) = []) :
    find_similar_issues svc cosine tfidfCos f issue existing top_k =
      .error (.valueError
        "empty vocabulary; perhaps the documents only contain stop words") := by
  unfold find_similar_issues
  rw [find_similar_issues_with_eq hne hfil hfe htexts]
  simp only [hf, Bool.false_eq_true, if_false]
  unfold compute_tfidf_similarity
  rw [if_pos hvocab, error_bind]

/-- Witness for the amended C1 at a concrete input (single-letter tokens,
which the vectorizer's two-character token pattern discards), via the
theorem itself. -/
theorem claim_C1_witness :
    find_similar_issues (fun _ => .error (.serviceError "x")) (fun _ _ => 0) (fun _ _ => [])
      (mkDuplicateFinder false (3/4) none none) ⟨1, "a", some "b", "u"⟩
      [⟨some 2, some "a", some "b", some "u1"⟩] 3 =
      .error (.valueError
        "empty vocabulary; perhaps the documents only contain stop words") :=
  claim_C1_empty_vocab_raises _ _ _ _ (by rfl) _ _ 3
    [⟨some 2, some "a", some "b", some "u1"⟩] ["a a b"]
    (by rfl) (by rfl) (by rfl) (by rfl) (by rfl)

/-- C2 counterexample: a candidate lacking the `title` key is not treated
as having an empty title — check_exact_duplicate raises `KeyError`
(`existing["title"]`, line 258), so it is false that it never raises. -/
theorem claim_C2_counterexample :
    check_exact_duplicate ⟨1, "t", none, "u"⟩ [⟨some 2, none, none, none⟩] =
      .error (.keyError "title") := by
  rfl

lemma isEmpty_map_fillBody (l : List RawIssue) :
    (l.map fillBody).isEmpty = l.isEmpty := by
  cases l <;> rfl

lemma filterByNumber_map_fillBody (n : Int) :
    ∀ (l : List RawIssue),
      filterByNumber n (l.map fillBody) =
        (filterByNumber n l).map (List.map fillBody)
  | [] => rfl
  | e :: es => by
    obtain ⟨en, et, eb, eu⟩ := e
    rw [List.map_cons, filterByNumber, filterByNumber]
    cases en with
    | none => rfl
    | some m =>
      show (Except.ok m >>= _) = Except.map _ (Except.ok m >>= _)
      rw [ok_bind, ok_bind, filterByNumber_map_fillBody n es]
      cases hrec : filterByNumber n es with
      | error err => rfl
      | ok rest =>
        show (Except.ok (rest.map fillBody) >>= _) = _
        rw [ok_bind]
        split
        · rfl
        · rfl

lemma candidateTexts_map_fillBody :
    ∀ (l : List RawIssue), candidateTexts (l.map fillBody) = candidateTexts l
  | [] => rfl
  | e :: es => by
    obtain ⟨en, et, eb, eu⟩ := e
    rw [List.map_cons, candidateTexts, candidateTexts]
    cases et with
    | none => rfl
    | some t =>
      show (Except.ok t >>= _) = (Except.ok t >>= _)
      rw [ok_bind, ok_bind, candidateTexts_map_fillBody es]
      cases hrec : candidateTexts es with
      | error err => rfl
      | ok texts =>
        rw [ok_bind]
        rfl

lemma listGet_map_fillBody (l : List RawIssue) (idx : Nat) :
    listGet (l.map fillBody) idx = (listGet l idx).map fillBody := by
  unfold listGet
  rw [List.getElem?_map]
  cases l[idx]? <;> rfl

lemma rankLoop_map_fillBody {filtered : List RawIssue} {θ : ℚ} {k : Nat} :
    ∀ (pairs : List (Nat × ℚ)) (cnt : Nat),
      rankLoop (filtered.map fillBody) θ k pairs cnt = rankLoop filtered θ k pairs cnt
  | [], _ => rfl
  | (idx, s) :: rest, cnt => by
    rw [rankLoop, rankLoop]
    split
    · rw [listGet_map_fillBody]
      cases hg : listGet filtered idx with
      | error err => rfl
      | ok e =>
        obtain ⟨en, et, eb, eu⟩ := e
        show (Except.ok (fillBody ⟨en, et, eb, eu⟩) >>= _) =
          (Except.ok (⟨en, et, eb, eu⟩ : RawIssue) >>= _)
        rw [ok_bind, ok_bind]
        cases en with
        | none => rfl
        | some n =>
          show (Except.ok n >>= _) = (Except.ok n >>= _)
          rw [ok_bind, ok_bind]
          cases et with
          | none => rfl
          | some t =>
            show (Except.ok t >>= _) = (Except.ok t >>= _)
            rw [ok_bind, ok_bind]
            cases eu with
            | none => rfl
            | some u =>
              show (Except.ok u >>= _) = (Except.ok u >>= _)
              rw [ok_bind, ok_bind]
              cases mkSimilarIssue n t u (round2 s) with
              | error err => rfl
              | ok si =>
                rw [ok_bind, ok_bind, rankLoop_map_fillBody rest (cnt + 1)]
    · exact rankLoop_map_fillBody rest cnt

/-- C2 amended: a candidate lacking `body` is treated as having body `""`
by find_similar_issues (replacing an absent body by the empty string
changes nothing), and check_exact_duplicate never reads `body` and never
raises when every candidate carries `number` and `title`; a missing
`title` (or `number`), by contrast, raises `KeyError` (see the
counterexample). -/
theorem claim_C2_missing_body_defaults
    (svc : List String → Except PyError (List (List ℚ)))
    (cosine : List ℚ → List ℚ → ℚ) (tfidfCos : String → List String → List ℚ)
    (f : DuplicateFinder) (issue : GitHubIssue) (existing : List RawIssue)
    (top_k : Nat) :
    find_similar_issues svc cosine tfidfCos f issue existing top_k =
      find_similar_issues svc cosine tfidfCos f issue (existing.map fillBody) top_k ∧
    ((∀ e ∈ existing, e.number.isSome ∧ e.title.isSome) →
      ∃ r, check_exact_duplicate issue existing = .ok r) := by
  constructor
  · unfold find_similar_issues find_similar_issues_with
    rw [isEmpty_map_fillBody]
    split
    · rfl
    · rw [filterByNumber_map_fillBody]
      cases hfil : filterByNumber issue.number existing with
      | error err => rfl
      | ok filtered =>
        show _ = (Except.ok (filtered.map fillBody) >>= _)
        rw [ok_bind, ok_bind, isEmpty_map_fillBody]
        split
        · rfl
        · rw [candidateTexts_map_fillBody]
          cases htexts : candidateTexts filtered with
          | error err => rfl
          | ok texts =>
            rw [ok_bind, ok_bind]
            congr 1
            funext sims
            exact (rankLoop_map_fillBody _ _).symm
  · intro h
    exact ⟨_, checkExactLoop_eq_find h issue (preprocess_text issue.title)⟩

/-- Witness for the amended C2 at a concrete input, via the theorem
itself. -/
theorem claim_C2_witness :
    find_similar_issues (fun _ => .error (.serviceError "x")) (fun _ _ => 0) (fun _ _ => [1])
      (mkDuplicateFinder false (3/4) none none) ⟨1, "hello world", some "", "u0"⟩
      [⟨some 2, some "hello world", none, some "u1"⟩] 3 =
    find_similar_issues (fun _ => .error (.serviceError "x")) (fun _ _ => 0) (fun _ _ => [1])
      (mkDuplicateFinder false (3/4) none none) ⟨1, "hello world", some "", "u0"⟩
      [⟨some 2, some "hello world", some "", some "u1"⟩] 3 ∧
    (check_exact_duplicate ⟨1, "hello world", some "", "u0"⟩
      [⟨some 2, some "hello world", none, some "u1"⟩]).isOk = true := by
  obtain ⟨h1, h2⟩ := claim_C2_missing_body_defaults
    (fun _ => .error (.serviceError "x")) (fun _ _ => 0) (fun _ _ => [1])
    (mkDuplicateFinder false (3/4) none none) ⟨1, "hello world", some "", "u0"⟩
    [⟨some 2, some "hello world", none, some "u1"⟩] 3
  refine ⟨h1, ?_⟩
  obtain ⟨r, hr⟩ := h2 (by decide)
  rw [hr]
  rfl

/-! ## Claim C3: rounding lemmas -/

lemma halfEvenRound_ge (q : ℚ) : ⌊q⌋ ≤ halfEvenRound q := by
  unfold halfEvenRound
  split_ifs <;> omega

lemma halfEvenRound_le (q : ℚ) : halfEvenRound q ≤ ⌊q⌋ + 1 := by
  unfold halfEvenRound
  split_ifs <;> omega

lemma halfEvenRound_mono {x y : ℚ} (h : x ≤ y) : halfEvenRound x ≤ halfEvenRound y := by
  have hff : ⌊x⌋ ≤ ⌊y⌋ := Int.floor_le_floor h
  rcases lt_or_eq_of_le hff with hf | hf
  · calc halfEvenRound x ≤ ⌊x⌋ + 1 := halfEvenRound_le x
      _ ≤ ⌊y⌋ := by omega
      _ ≤ halfEvenRound y := halfEvenRound_ge y
  · rcases le_or_lt (halfEvenRound x) ⌊x⌋ with hle | hgt
    · calc halfEvenRound x ≤ ⌊x⌋ := hle
        _ = ⌊y⌋ := hf
        _ ≤ halfEvenRound y := halfEvenRound_ge y
    · have ha : ¬ (x - ⌊x⌋ < 1 / 2) := by
        intro hlt
        unfold halfEvenRound at hgt
        rw [if_pos hlt] at hgt
        omega
      have hfx : (⌊x⌋ : ℚ) = (⌊y⌋ : ℚ) := by exact_mod_cast hf
      have hb : ¬ (y - ⌊y⌋ < 1 / 2) := by
        intro hlt
        apply ha
        linarith
      have hxle : halfEvenRound x ≤ ⌊x⌋ + 1 := halfEvenRound_le x
      suffices hy : halfEvenRound y = ⌊y⌋ + 1 by omega
      by_cases hb2 : (1 : ℚ) / 2 < y - ⌊y⌋
      · unfold halfEvenRound
        rw [if_neg hb, if_pos hb2]
      · have hbeq : y - ⌊y⌋ = 1 / 2 := by
          have := not_lt.mp hb
          have := not_lt.mp hb2
          linarith
        have haeq : x - ⌊x⌋ = 1 / 2 := by
          have := not_lt.mp ha
          linarith
        have hodd : ¬ (⌊x⌋ % 2 = 0) := by
          intro he
          unfold halfEvenRound at hgt
          rw [if_neg ha, if_neg (by rw [haeq]; exact lt_irrefl _), if_pos he] at hgt
          omega
        unfold halfEvenRound
        rw [if_neg hb, if_neg (by rw [hbeq]; exact lt_irrefl _),
          if_neg (by rw [← hf]; exact hodd)]

lemma halfEvenRound_nonneg {q : ℚ} (h : 0 ≤ q) : 0 ≤ halfEvenRound q := by
  have : (0 : ℤ) ≤ ⌊q⌋ := Int.floor_nonneg.mpr h
  have := halfEvenRound_ge q
  omega

lemma halfEvenRound_le_hundred {q : ℚ} (h : q ≤ 100) : halfEvenRound q ≤ 100 := by
  have hfl : ⌊q⌋ ≤ 100 := by
    have : ⌊q⌋ ≤ ⌊(100 : ℚ)⌋ := Int.floor_le_floor h
    simpa using this
  rcases lt_or_eq_of_le hfl with hlt | heq
  · have := halfEvenRound_le q
    omega
  · unfold halfEvenRound
    have hq : q - ⌊q⌋ < 1 / 2 := by
      have h1 : (⌊q⌋ : ℚ) = 100 := by exact_mod_cast heq
      linarith
    rw [if_pos hq]
    omega

lemma round2_mono {x y : ℚ} (h : x ≤ y) : round2 x ≤ round2 y := by
  unfold round2
  have hm : halfEvenRound (x * 100) ≤ halfEvenRound (y * 100) :=
    halfEvenRound_mono (by linarith)
  have : (halfEvenRound (x * 100) : ℚ) ≤ (halfEvenRound (y * 100) : ℚ) := by
    exact_mod_cast hm
  linarith

lemma round2_bounds {q : ℚ} (h0 : 0 ≤ q) (h1 : q ≤ 1) :
    0 ≤ round2 q ∧ round2 q ≤ 1 := by
  unfold round2
  have hge : (0 : ℤ) ≤ halfEvenRound (q * 100) := halfEvenRound_nonneg (by linarith)
  have hle : halfEvenRound (q * 100) ≤ 100 := halfEvenRound_le_hundred (by linarith)
  have hge' : (0 : ℚ) ≤ (halfEvenRound (q * 100) : ℚ) := by exact_mod_cast hge
  have hle' : (halfEvenRound (q * 100) : ℚ) ≤ 100 := by exact_mod_cast hle
  constructor <;> [positivity; skip]
  rw [div_le_one (by norm_num)]
  linarith

/-! ## Claim C3: sorting lemmas -/

lemma pySortDesc_nil {α : Type} : pySortDesc ([] : List (α × ℚ)) = [] := rfl

lemma pySortDesc_cons {α : Type} (a : α × ℚ) (l : List (α × ℚ)) :
    pySortDesc (a :: l) = List.orderedInsert scoreDescRel a (pySortDesc l) := rfl

lemma pySortDesc_sorted {α : Type} (l : List (α × ℚ)) :
    List.Sorted scoreDescRel (pySortDesc l) :=
  List.sorted_insertionSort scoreDescRel l

lemma pySortDesc_perm {α : Type} (l : List (α × ℚ)) : List.Perm (pySortDesc l) l :=
  List.perm_insertionSort scoreDescRel l

lemma orderedInsert_map {α β : Type} (g : α × ℚ → β × ℚ) (hg : ∀ p, (g p).2 = p.2) :
    ∀ (l : List (α × ℚ)) (a : α × ℚ),
      List.orderedInsert scoreDescRel (g a) (l.map g) =
        (List.orderedInsert scoreDescRel a l).map g
  | [], _ => rfl
  | b :: l, a => by
    rw [List.map_cons]
    simp only [List.orderedInsert]
    have hiff : scoreDescRel (g a) (g b) ↔ scoreDescRel a b := by
      unfold scoreDescRel
      rw [hg a, hg b]
    by_cases hr : scoreDescRel a b
    · rw [if_pos (hiff.mpr hr), if_pos hr, List.map_cons, List.map_cons]
    · rw [if_neg (fun hc => hr (hiff.mp hc)), if_neg hr, List.map_cons,
        orderedInsert_map g hg l a]

lemma pySortDesc_map {α β : Type} (g : α × ℚ → β × ℚ) (hg : ∀ p, (g p).2 = p.2) :
    ∀ (l : List (α × ℚ)), pySortDesc (l.map g) = (pySortDesc l).map g
  | [] => rfl
  | a :: l => by
    rw [List.map_cons, pySortDesc_cons, pySortDesc_cons, pySortDesc_map g hg l,
      orderedInsert_map g hg]

lemma orderedInsert_all_ge {α : Type} (a : α × ℚ) :
    ∀ {l : List (α × ℚ)}, (∀ b ∈ l, scoreDescRel a b) →
      List.orderedInsert scoreDescRel a l = a :: l
  | [], _ => rfl
  | b :: l, h => by
    simp only [List.orderedInsert]
    rw [if_pos (h b (List.mem_cons_self ..))]

lemma filter_orderedInsert {α : Type} (pk : ℚ → Bool) (a : α × ℚ) :
    ∀ {l : List (α × ℚ)}, List.Sorted scoreDescRel l →
      ((List.orderedInsert scoreDescRel a l).filter fun p => pk p.2) =
        if pk a.2 then List.orderedInsert scoreDescRel a (l.filter fun p => pk p.2)
        else l.filter fun p => pk p.2
  | [], _ => by
    by_cases hpa : pk a.2
    · simp only [List.orderedInsert, List.filter_cons, hpa, if_pos, List.filter_nil]
    · simp only [List.orderedInsert, List.filter_cons, hpa, List.filter_nil]
  | b :: l, hsort => by
    obtain ⟨hb, hsl⟩ := List.sorted_cons.mp hsort
    simp only [List.orderedInsert]
    by_cases hr : scoreDescRel a b
    · rw [if_pos hr, List.filter_cons]
      by_cases hpa : pk a.2
      · rw [if_pos hpa, if_pos hpa]
        have hall : ∀ c ∈ (b :: l).filter (fun p => pk p.2), scoreDescRel a c := by
          intro c hc
          have hcmem : c ∈ b :: l := List.mem_of_mem_filter hc
          rcases List.mem_cons.mp hcmem with rfl | hcl
          · exact hr
          · exact le_trans (hb c hcl) hr
        rw [orderedInsert_all_ge a hall]
      · rw [if_neg hpa, if_neg hpa]
    · rw [if_neg hr, List.filter_cons]
      by_cases hpb : pk b.2
      · rw [if_pos hpb, filter_orderedInsert pk a hsl]
        by_cases hpa : pk a.2
        · rw [if_pos hpa, if_pos hpa, List.filter_cons, if_pos hpb]
          simp only [List.orderedInsert]
          rw [if_neg hr]
        · rw [if_neg hpa, if_neg hpa, List.filter_cons, if_pos hpb]
      · rw [if_neg hpb, filter_orderedInsert pk a hsl]
        by_cases hpa : pk a.2
        · rw [if_pos hpa, if_pos hpa, List.filter_cons, if_neg hpb]
        · rw [if_neg hpa, if_neg hpa, List.filter_cons, if_neg hpb]

lemma filter_pySortDesc {α : Type} (pk : ℚ → Bool) :
    ∀ (l : List (α × ℚ)),
      ((pySortDesc l).filter fun p => pk p.2) = pySortDesc (l.filter fun p => pk p.2)
  | [] => rfl
  | a :: l => by
    rw [pySortDesc_cons, filter_orderedInsert pk a (pySortDesc_sorted l),
      filter_pySortDesc pk l, List.filter_cons]
    by_cases hpa : pk a.2
    · rw [if_pos hpa, if_pos hpa, pySortDesc_cons]
    · rw [if_neg hpa, if_neg hpa]

/-! ## Claim C3: characterizing the ranking loop -/

lemma mem_enumFrom_facts :
    ∀ {ss : List ℚ} {j : Nat} {p : Nat × ℚ}, p ∈ List.enumFrom j ss →
      j ≤ p.1 ∧ p.1 < j + ss.length ∧ p.2 ∈ ss
  | [], _, p, h => by cases h
  | s :: ss, j, p, h => by
    rw [show List.enumFrom j (s :: ss) = (j, s) :: List.enumFrom (j + 1) ss from rfl] at h
    rcases List.mem_cons.mp h with rfl | h'
    · exact ⟨le_refl _, by simp, List.mem_cons_self ..⟩
    · obtain ⟨h1, h2, h3⟩ := mem_enumFrom_facts h'
      refine ⟨by omega, ?_, List.mem_cons_of_mem s h3⟩
      simp only [List.length_cons]
      omega

lemma filterByNumber_id {n : Int} :
    ∀ {l : List RawIssue}, (∀ e ∈ l, e.number.isSome ∧ e.number ≠ some n) →
      filterByNumber n l = .ok l
  | [], _ => rfl
  | e :: es, h => by
    obtain ⟨hs, hne⟩ := h e (List.mem_cons_self ..)
    obtain ⟨m, hm⟩ := Option.isSome_iff_exists.mp hs
    rw [filterByNumber, show getKey e.number "number" = Except.ok m by rw [hm]; rfl,
      ok_bind, filterByNumber_id (fun x hx => h x (List.mem_cons_of_mem e hx)), ok_bind,
      if_pos (by rw [hm] at hne; intro hc; exact hne (by rw [hc]))]
    rfl

lemma candidateTexts_ok :
    ∀ {l : List RawIssue}, (∀ e ∈ l, e.title.isSome) →
      ∃ texts, candidateTexts l = .ok texts
  | [], _ => ⟨[], rfl⟩
  | e :: es, h => by
    obtain ⟨t, ht⟩ := Option.isSome_iff_exists.mp (h e (List.mem_cons_self ..))
    obtain ⟨texts, htx⟩ := candidateTexts_ok (fun x hx => h x (List.mem_cons_of_mem e hx))
    refine ⟨combine_issue_text t (e.body.getD "") :: texts, ?_⟩
    rw [candidateTexts, show getKey e.title "title" = Except.ok t by rw [ht]; rfl,
      ok_bind, htx, ok_bind]
    rfl

lemma map_enumFrom_getD (cands : List RawIssue) (d : RawIssue) :
    ∀ (ss : List ℚ) (i : Nat), i + ss.length ≤ cands.length →
      (List.enumFrom i ss).map (fun p => (cands.getD p.1 d, p.2)) =
        (cands.drop i).zip ss
  | [], i, _ => by simp
  | s :: ss, i, h => by
    have hi : i < cands.length := by
      simp only [List.length_cons] at h
      omega
    rw [show List.enumFrom i (s :: ss) = (i, s) :: List.enumFrom (i + 1) ss from rfl,
      List.map_cons, map_enumFrom_getD cands d ss (i + 1)
        (by simp only [List.length_cons] at h; omega),
      List.drop_eq_getElem_cons hi, List.zip_cons_cons,
      List.getD_eq_getElem cands d hi]

lemma map_enum_getD (cands : List RawIssue) (d : RawIssue) (ss : List ℚ)
    (h : ss.length = cands.length) :
    ss.enum.map (fun p => (cands.getD p.1 d, p.2)) = cands.zip ss := by
  have hd := map_enumFrom_getD cands d ss 0 (by omega)
  rw [show ss.enum = List.enumFrom 0 ss from rfl, hd, List.drop_zero]

lemma rankLoop_eq (filtered : List RawIssue) (θ : ℚ) (k : Nat)
    (hkeys : ∀ e ∈ filtered, e.number.isSome ∧ e.title.isSome ∧ e.url.isSome) :
    ∀ (pairs : List (Nat × ℚ)) (cnt : Nat),
      (∀ p ∈ pairs, p.1 < filtered.length ∧ 0 ≤ round2 p.2 ∧ round2 p.2 ≤ 1) →
      rankLoop filtered θ k pairs cnt =
        .ok (((pairs.filter fun p => θ ≤ p.2).take (k - cnt)).map fun p =>
          { issue_number := (filtered.getD p.1 ⟨none, none, none, none⟩).number.getD 0
            title := (filtered.getD p.1 ⟨none, none, none, none⟩).title.getD ""
            url := (filtered.getD p.1 ⟨none, none, none, none⟩).url.getD ""
            similarity := round2 p.2 })
  | [], cnt, _ => by simp [rankLoop]
  | (idx, s) :: rest, cnt, hp => by
    obtain ⟨hidx, hb0, hb1⟩ := hp (idx, s) (List.mem_cons_self ..)
    have hrest : ∀ p ∈ rest, p.1 < filtered.length ∧ 0 ≤ round2 p.2 ∧ round2 p.2 ≤ 1 :=
      fun p hpm => hp p (List.mem_cons_of_mem _ hpm)
    rw [rankLoop]
    by_cases hs : θ ≤ s
    · by_cases hc : cnt < k
      · rw [if_pos ⟨hs, hc⟩]
        have hget : listGet filtered idx =
            .ok (filtered.getD idx ⟨none, none, none, none⟩) := by
          unfold listGet
          rw [List.getElem?_eq_getElem hidx, List.getD_eq_getElem filtered _ hidx]
        rw [hget, ok_bind]
        have hemem : filtered.getD idx ⟨none, none, none, none⟩ ∈ filtered := by
          rw [List.getD_eq_getElem filtered _ hidx]
          exact List.getElem_mem hidx
        obtain ⟨hn, ht, hu⟩ := hkeys _ hemem
        obtain ⟨n, hn'⟩ := Option.isSome_iff_exists.mp hn
        obtain ⟨t, ht'⟩ := Option.isSome_iff_exists.mp ht
        obtain ⟨u, hu'⟩ := Option.isSome_iff_exists.mp hu
        rw [show getKey (filtered.getD idx ⟨none, none, none, none⟩).number "number" =
            Except.ok n by rw [hn']; rfl, ok_bind]
        rw [show getKey (filtered.getD idx ⟨none, none, none, none⟩).title "title" =
            Except.ok t by rw [ht']; rfl, ok_bind]
        rw [show getKey (filtered.getD idx ⟨none, none, none, none⟩).url "url" =
            Except.ok u by rw [hu']; rfl, ok_bind]
        rw [show mkSimilarIssue n t u (round2 s) = Except.ok ⟨n, t, u, round2 s⟩ by
          unfold mkSimilarIssue; rw [if_pos ⟨hb0, hb1⟩], ok_bind]
        rw [rankLoop_eq filtered θ k hkeys rest (cnt + 1) hrest, ok_bind]
        rw [List.filter_cons, if_pos (by simpa using hs)]
        have hkc : k - cnt = (k - (cnt + 1)) + 1 := by omega
        rw [hkc, List.take_succ_cons, List.map_cons]
        rw [hn', ht', hu']
        rfl
      · rw [if_neg (fun hcon => hc hcon.2),
          rankLoop_eq filtered θ k hkeys rest cnt hrest]
        have hkc : k - cnt = 0 := by omega
        rw [hkc]
        simp
    · rw [if_neg (fun hcon => hs hcon.1),
        rankLoop_eq filtered θ k hkeys rest cnt hrest, List.filter_cons,
        if_neg (by simpa using hs)]

/-- C3: with aligned similarity scores, find_similar_issues produces exactly
the spec's reference ranking: keep the candidates whose score is ≥ the
threshold (equality retained), sort by score descending with ties in
original candidate order, truncate to top_k, round the similarity to two
decimals only in the output; consequently the result is monotonically
non-increasing in similarity, every result stems from a full-precision
score ≥ the threshold, and the length is at most top_k. -/
theorem claim_C3_ranking_matches_spec
    (f : DuplicateFinder) (issue : GitHubIssue) (existing : List RawIssue)
    (top_k : Nat) (scores : List ℚ)
    (hne : existing ≠ [])
    (hkeys : ∀ e ∈ existing, e.number.isSome ∧ e.title.isSome ∧ e.url.isSome)
    (hid : ∀ e ∈ existing, e.number ≠ some issue.number)
    (hlen : scores.length = existing.length)
    (hbound : ∀ s ∈ scores, 0 ≤ s ∧ s ≤ 1) :
    find_similar_issues_with (fun _ _ => .ok scores) f issue existing top_k =
      .ok (specRankedMatches existing scores f.similarity_threshold top_k) ∧
    (specRankedMatches existing scores f.similarity_threshold top_k).Pairwise
      (fun a b => b.similarity ≤ a.similarity) ∧
    (∀ m ∈ specRankedMatches existing scores f.similarity_threshold top_k,
      ∃ s, f.similarity_threshold ≤ s ∧ m.similarity = round2 s) ∧
    (specRankedMatches existing scores f.similarity_threshold top_k).length ≤ top_k := by
  have hspec : specRankedMatches existing scores f.similarity_threshold top_k =
      ((pySortDesc ((existing.zip scores).filter fun p =>
          f.similarity_threshold ≤ p.2)).take top_k).map
        (fun p => { issue_number := p.1.number.getD 0, title := p.1.title.getD "",
                    url := p.1.url.getD "", similarity := round2 p.2 }) := rfl
  refine ⟨?_, ?_, ?_, ?_⟩
  · obtain ⟨texts, htexts⟩ := candidateTexts_ok (fun e he => (hkeys e he).2.1)
    have hfil := filterByNumber_id (n := issue.number) (l := existing)
      (fun e he => ⟨(hkeys e he).1, hid e he⟩)
    have hemp : existing.isEmpty = false :=
      Bool.eq_false_iff.mpr (fun h => hne (List.isEmpty_iff.mp h))
    have hpairs : ∀ p ∈ pySortDesc scores.enum,
        p.1 < existing.length ∧ 0 ≤ round2 p.2 ∧ round2 p.2 ≤ 1 := by
      intro p hpmem
      have hpe : p ∈ scores.enum := (pySortDesc_perm scores.enum).mem_iff.mp hpmem
      obtain ⟨-, hlt, hmem⟩ :=
        mem_enumFrom_facts (show p ∈ List.enumFrom 0 scores from hpe)
      obtain ⟨hs0, hs1⟩ := hbound p.2 hmem
      obtain ⟨hr0, hr1⟩ := round2_bounds hs0 hs1
      exact ⟨by omega, hr0, hr1⟩
    rw [find_similar_issues_with_eq hemp hfil hemp htexts]
    simp only [ok_bind]
    rw [rankLoop_eq existing f.similarity_threshold top_k hkeys
      (pySortDesc scores.enum) 0 hpairs]
    rw [Nat.sub_zero, hspec]
    congr 1
    rw [← filter_pySortDesc (fun s => decide (f.similarity_threshold ≤ s))
        (existing.zip scores),
      ← map_enum_getD existing ⟨none, none, none, none⟩ scores hlen,
      pySortDesc_map (fun p => (existing.getD p.1 ⟨none, none, none, none⟩, p.2))
        (fun p => rfl) scores.enum,
      List.filter_map, ← List.map_take, List.map_map]
    rfl
  · rw [hspec]
    refine List.pairwise_map.mpr ?_
    refine List.Pairwise.imp ?_
      ((pySortDesc_sorted _).sublist (List.take_sublist _ _))
    intro a b hab
    exact round2_mono hab
  · intro m hm
    rw [hspec] at hm
    obtain ⟨p, hp, rfl⟩ := List.mem_map.mp hm
    have hp' : p ∈ (existing.zip scores).filter
        (fun q => f.similarity_threshold ≤ q.2) :=
      (pySortDesc_perm _).mem_iff.mp ((List.take_sublist _ _).subset hp)
    have hpf := List.of_mem_filter hp'
    exact ⟨p.2, by simpa using hpf, rfl⟩
  · rw [hspec, List.length_map]
    exact List.length_take_le _ _

/-- Witness for C3 at a concrete input (including a tie broken by original
candidate order), via the theorem itself. -/
theorem claim_C3_witness :
    find_similar_issues_with (fun _ _ => .ok [1/2, 9/10, 9/10, 1/4])
      (mkDuplicateFinder false (3/4) none none) ⟨1, "t", none, "u"⟩
      [⟨some 10, some "a", none, some "ua"⟩, ⟨some 11, some "b", none, some "ub"⟩,
       ⟨some 12, some "c", none, some "uc"⟩, ⟨some 13, some "d", none, some "ud"⟩] 2 =
      .ok [⟨11, "b", "ub", 9/10⟩, ⟨12, "c", "uc", 9/10⟩] := by
  have h := (claim_C3_ranking_matches_spec (mkDuplicateFinder false (3/4) none none)
    ⟨1, "t", none, "u"⟩
    [⟨some 10, some "a", none, some "ua"⟩, ⟨some 11, some "b", none, some "ub"⟩,
     ⟨some 12, some "c", none, some "uc"⟩, ⟨some 13, some "d", none, some "ud"⟩]
    2 [1/2, 9/10, 9/10, 1/4]
    (by decide) (by decide) (by decide) (by rfl) (by decide)).1
  rw [h]
  rfl

end IssuePilot
